import Mathlib

/-!
Verification development for the lab-research-dashboard repository.

The definitions below are a shallow embedding of the TypeScript sources:
`src/lib/vectorStore.ts` (chunking and gradual vectorization),
`src/app/api/chat/route.ts` (keyword / semantic search, corpus cache,
backend merge, and the POST chat handler).  JavaScript strings are
modelled as Lean `String`s (lists of characters); JavaScript numbers
appearing as integer counters are modelled as `Nat`/`Int`, and embedding
vectors as lists of rationals.  Each claim-level theorem carries a doc
comment naming the claim it settles.
-/

set_option linter.unusedVariables false

namespace LabDash

/-- ASCII lower-casing of a single character.  Models what
`String.prototype.toLowerCase` does on the character data occurring in
this code base: ASCII letters are mapped to lower case and all other
characters (in particular CJK characters) are unchanged. -/
def lowerChar (c : Char) : Char :=
  if 'A' ≤ c ∧ c ≤ 'Z' then Char.ofNat (c.toNat + 32) else c

/-- Model of `s.toLowerCase()`. -/
def jsToLower (s : String) : String := String.mk (s.data.map lowerChar)

/-- Embedding of `chunkText` from `src/lib/vectorStore.ts`, on character
lists.  The source advances a cursor by `maxLen` positions per loop
iteration and pushes `text.slice(cursor, min(n, cursor+maxLen))`; on a
non-empty remainder with `maxLen ≥ 1` that slice is the head character
followed by the next `maxLen - 1` characters. -/
def chunkChars (maxLen : Nat) : List Char → List (List Char)
  | [] => []
  | c :: rest =>
      (c :: rest.take (maxLen - 1)) :: chunkChars maxLen (rest.drop (maxLen - 1))
termination_by l => l.length
decreasing_by
  simp [List.length_drop]
  omega

/-- Embedding of `chunkText(text, maxLen)` on strings. -/
def chunkTextWith (text : String) (maxLen : Nat) : List String :=
  (chunkChars maxLen text.data).map String.mk

/-- Embedding of `chunkText(text)` with the source default `maxLen = 1500`. -/
def chunkText (text : String) : List String := chunkTextWith text 1500


/-- VectorChunk from `src/lib/vectorStore.ts`: a fixed-length slice of a
document plus its embedding vector (JS float components modelled as
rationals). -/
structure VChunk where
  idx : Nat
  text : String
  embedding : List Rat
deriving DecidableEq

/-- State of the key-value vector store: the flat id index stored under
`lab:vec:index` and the per-document chunk lists stored under
`lab:vec:<docId>`, modelled as an association list. -/
structure VecState where
  index : List String
  store : List (String × List VChunk)
deriving DecidableEq

/-- Model of `kv.set(VEC_KEY(docId), v)` on the association list. -/
def setEntry (k : String) (v : List VChunk) :
    List (String × List VChunk) → List (String × List VChunk)
  | [] => [(k, v)]
  | (k2, v2) :: rest => if k2 = k then (k, v) :: rest else (k2, v2) :: setEntry k v rest

/-- Model of `kv.get(VEC_KEY(docId))` on the association list. -/
def getEntry (k : String) : List (String × List VChunk) → Option (List VChunk)
  | [] => none
  | (k2, v2) :: rest => if k2 = k then some v2 else getEntry k rest

/-- Embedding of `storeDocVectors` from `src/lib/vectorStore.ts`.  The
batch embedding endpoint `openai.embeddings.create` is the oracle
parameter: it receives the (8000-character-truncated) chunks and either
fails (the thrown error propagates to the caller) or returns one vector
per input chunk.  The result carries the new store state and the number
of embedding-oracle invocations made. -/
def storeDocVectors (kvEnabled : Bool)
    (oracle : List String → Except Unit (List (List Rat)))
    (docId : String) (text : String) (maxChars : Option Nat) (st : VecState) :
    Except Unit (VecState × Nat) :=
  if !kvEnabled then .ok (st, 0) else
  let limited := match maxChars with
    | some m => String.mk (text.data.take m)
    | none => text
  let chunks := chunkTextWith limited 1500
  if chunks.isEmpty then .ok ({ st with store := setEntry docId [] st.store }, 0)
  else
    match oracle (chunks.map (fun c => String.mk (c.data.take 8000))) with
    | .error e => .error e
    | .ok embs =>
        let vectors := ((chunks.zip embs).enum).map
          (fun p => VChunk.mk p.1 p.2.1 p.2.2)
        let st1 := { st with store := setEntry docId vectors st.store }
        let st2 := if st1.index.contains docId then st1
          else { st1 with index := st1.index ++ [docId] }
        .ok (st2, 1)

/-- Result of a run of `ensureVectorsGradual`: the final store state, the
ids that were actually (re-)vectorized, and how many embedding-oracle
invocations were made. -/
structure EnsureResult where
  state : VecState
  processed : List String
  calls : Nat
deriving DecidableEq

/-- Loop body of `ensureVectorsGradual`: vectorize the selected documents
in order; a thrown oracle error is swallowed by the surrounding
`try/catch` (earlier key-value writes are kept, the failing call still
counts as an invocation). -/
def ensureGo (kvEnabled : Bool) (oracle : List String → Except Unit (List (List Rat)))
    (maxCharsPerDoc : Nat) :
    List (String × String) → VecState → List String → Nat → EnsureResult
  | [], st, pr, n => EnsureResult.mk st pr.reverse n
  | d :: rest, st, pr, n =>
      match storeDocVectors kvEnabled oracle d.1 d.2 (some maxCharsPerDoc) st with
      | .error _ => EnsureResult.mk st pr.reverse (n + 1)
      | .ok (st2, k) => ensureGo kvEnabled oracle maxCharsPerDoc rest st2 (d.1 :: pr) (n + k)

/-- Embedding of `ensureVectorsGradual` from `src/lib/vectorStore.ts`:
read the id index, keep only documents whose id is not yet indexed, take
the first `perRun` of them and vectorize those. -/
def ensureVectorsGradual (kvEnabled : Bool)
    (oracle : List String → Except Unit (List (List Rat)))
    (docs : List (String × String)) (perRun : Nat) (maxCharsPerDoc : Nat)
    (st : VecState) : EnsureResult :=
  if !kvEnabled then EnsureResult.mk st [] 0 else
  let missing := docs.filter (fun d => !st.index.contains d.1)
  let slice := missing.take perRun
  ensureGo kvEnabled oracle maxCharsPerDoc slice st [] 0

/-- Document record as used by the chat route (interface
`KnowledgeDocument` in `src/app/api/chat/route.ts`; `metadata` fields are
inlined). -/
structure KDoc where
  id : String
  content : String
  title : String
  dtype : String
  author : Option String
  year : Option Nat
  searchScore : Option Nat
  matchDetails : Option (List String)
deriving DecidableEq

/-- Entry of the static seed corpus `src/data/knowledgeBase.ts`. -/
structure SeedDoc where
  id : String
  content : String
  title : String
  dtype : String
  author : Option String
  year : Option Nat
deriving DecidableEq

/-- Uploaded-document record of the blob / key-value / in-memory backends
(`BlobStoredDocument` / `StoredDocument`); a missing `content` field is
modelled as the empty string, exactly what the `d.content || ...` default
in the merge yields. -/
structure UpDoc where
  id : String
  name : String
  dtype : String
  author : Option String
  content : String
deriving DecidableEq

/-- Characters stripped by `String.prototype.trim` that occur in this
code base (ASCII whitespace plus the ideographic and no-break spaces). -/
def isJsSpace (c : Char) : Bool :=
  c = ' ' ∨ c = '\t' ∨ c = '\n' ∨ c = '\r' ∨ c = '\x0b' ∨ c = '\x0c'
    ∨ c = '\u00a0' ∨ c = '\u3000'

/-- Model of `s.trim()`. -/
def jsTrim (s : String) : String :=
  String.mk (((s.data.dropWhile isJsSpace).reverse.dropWhile isJsSpace).reverse)

/-- Conversion of a static seed entry into a chat-route document
(route.ts lines 306-315). -/
def seedToK (d : SeedDoc) : KDoc :=
  KDoc.mk d.id d.content d.title d.dtype d.author d.year none none

/-- Placeholder body substituted for documents whose text extraction
failed (route.ts lines 325, 344, 363). -/
def metadataOnlyBody (name : String) : String :=
  "【メタデータのみ】本文抽出不可のためファイル名を記載: " ++ name

/-- Conversion of an uploaded document into a chat-route document: the
trimmed content if non-empty, otherwise the metadata-only placeholder. -/
def upToK (d : UpDoc) : KDoc :=
  let body := jsTrim d.content
  KDoc.mk d.id (if body.length > 0 then body else metadataOnlyBody d.name)
    d.name d.dtype d.author none none none

/-- Embedding of the three-backend merge inside `loadThesisData`
(route.ts lines 300-370): static seed first; then ALL blob-shard
documents (no id check against the seed); then legacy blob metadata
documents whose id is not yet present (the id set is computed once,
before that loop); then in-memory store documents whose id is not yet
present.  A backend given as `none` models its `try/catch` having
swallowed a load failure. -/
def mergeCorpus (staticKB : List SeedDoc) (shards legacy memory : Option (List UpDoc)) :
    List KDoc :=
  let t0 := staticKB.map seedToK
  let t1 := match shards with
    | some sd => if sd.length > 0 then t0 ++ sd.map upToK else t0
    | none => t0
  let ids1 := t1.map (fun d => d.id)
  let t2 := match legacy with
    | some ld => t1 ++ (ld.filter (fun d => !ids1.contains d.id)).map upToK
    | none => t1
  let ids2 := t2.map (fun d => d.id)
  match memory with
  | some md => t2 ++ (md.filter (fun d => !ids2.contains d.id)).map upToK
  | none => t2

/-- In-process cache globals of the chat route (`_thesisCache`,
`_cacheTimestamp`, `_cacheKVVersion`). -/
structure CacheState where
  thesisCache : Option (List KDoc)
  cacheTimestamp : Int
  cacheKVVersion : Option Int
deriving DecidableEq

/-- Cache time-to-live, route.ts line 26: two minutes in milliseconds. -/
def CACHE_DURATION : Int := 2 * 60 * 1000

/-- Fresh-process state of the cache globals. -/
def initialCache : CacheState := CacheState.mk none 0 none

/-- Cache-validity check of `loadThesisData` (route.ts lines 286-298):
the cache is served only when the no-cache header is absent, the cache
array is non-null, the TTL has not elapsed, and the remote version read
(`remoteVersion`, `null` when the read failed) is non-null and equal to
the version recorded at the last fill. -/
def cacheUsable (st : CacheState) (now : Int) (noCache : Bool)
    (remoteVersion : Option Int) : Bool :=
  let cacheValidByTime := decide (now - st.cacheTimestamp < CACHE_DURATION)
  let cacheValidByVersion := match st.cacheKVVersion, remoteVersion with
    | some a, some b => b == a
    | _, _ => false
  !noCache && st.thesisCache.isSome && cacheValidByTime && cacheValidByVersion

/-- Per-request environment of one `loadThesisData` call: the clock, the
no-cache request header, the two reads of the remote version counter
(`none` models a failed read or a non-numeric value), and the three
upload backends. -/
structure LoadEnv where
  now : Int
  noCache : Bool
  verRead1 : Option Int
  verRead2 : Option Int
  shards : Option (List UpDoc)
  legacy : Option (List UpDoc)
  memory : Option (List UpDoc)
deriving DecidableEq

/-- Embedding of `loadThesisData` (route.ts lines 286-441) as a state
transition.  Returns the corpus served, whether a fresh corpus reload
was performed, and the new cache state.  On a reload the recorded
version is the second version read when numeric, else the current time
(lines 375-380).  The best-effort gradual vectorization kicked off on
the fresh path does not affect the corpus or the cache and is modelled
separately by `ensureVectorsGradual`. -/
def loadThesisData (staticKB : List SeedDoc) (env : LoadEnv) (st : CacheState) :
    List KDoc × Bool × CacheState :=
  if cacheUsable st env.now env.noCache env.verRead1 then
    (st.thesisCache.getD [], false, st)
  else
    let thesisData := mergeCorpus staticKB env.shards env.legacy env.memory
    let ver := match env.verRead2 with
      | some v => some v
      | none => some env.now
    (thesisData, true, CacheState.mk (some thesisData) env.now ver)


/-- Generic tokenizer: maximal runs of non-delimiter characters.  This is
the effect of `s.split(delimiterRegex).filter(t => t.length > 0)` (the
split can produce empty fragments at the ends, which the sources always
filter away). -/
def splitRunsF (isDelim : Char → Bool) : Nat → List Char → List (List Char)
  | 0, _ => []
  | _ + 1, [] => []
  | fuel + 1, c :: rest =>
      if isDelim c then splitRunsF isDelim fuel rest
      else (c :: rest.takeWhile (fun x => !isDelim x))
        :: splitRunsF isDelim fuel (rest.dropWhile (fun x => !isDelim x))

/-- Entry point of the tokenizer; the fuel (one unit per character
consumed, and every step consumes at least one) makes the recursion
structural so that concrete runs reduce inside the kernel. -/
def splitRuns (isDelim : Char → Bool) (l : List Char) : List (List Char) :=
  splitRunsF isDelim l.length l

/-- String-level tokenizer. -/
def splitTokens (isDelim : Char → Bool) (s : String) : List String :=
  (splitRuns isDelim s.data).map String.mk

/-- Delimiters of the outer keyword split (route.ts line 553). -/
def isOuterDelim (c : Char) : Bool :=
  isJsSpace c || c = '、' || c = '，' || c = '。' || c = '！' || c = '？'

/-- Delimiters of the dynamic-keyword query split (route.ts line 856). -/
def isDynDelim (c : Char) : Bool := isOuterDelim c || c = '-' || c = '_'

/-- CJK ideograph range of the character class used throughout the route
(U+4E00 to U+9FAF). -/
def isKanji (c : Char) : Bool := 0x4e00 ≤ c.toNat && c.toNat ≤ 0x9faf

/-- Splitting of one maximal character-class run into the successive
greedy matches of a bounded quantifier: the regex engine repeatedly
consumes `hi` characters while at least `lo` remain. -/
def chunkRunF (lo hi : Nat) : Nat → List Char → List (List Char)
  | 0, _ => []
  | fuel + 1, l =>
      if 1 ≤ lo ∧ lo ≤ l.length ∧ 1 ≤ hi then
        l.take hi :: chunkRunF lo hi fuel (l.drop hi)
      else []

/-- Entry point of the bounded-quantifier run splitting (fuel as in
`splitRuns`). -/
def chunkRun (lo hi : Nat) (l : List Char) : List (List Char) :=
  chunkRunF lo hi l.length l

/-- Global matches of a regex of shape `[class]{lo,hi}` over a character
list: within each maximal class run, greedy bounded matches; the scan
resumes after each run. -/
def boundedRunsF (isC : Char → Bool) (lo hi : Nat) : Nat → List Char → List (List Char)
  | 0, _ => []
  | _ + 1, [] => []
  | fuel + 1, c :: rest =>
      if isC c then
        chunkRun lo hi (c :: rest.takeWhile isC)
          ++ boundedRunsF isC lo hi fuel (rest.dropWhile isC)
      else boundedRunsF isC lo hi fuel rest

/-- Entry point of the global bounded-quantifier matcher (fuel as in
`splitRuns`). -/
def boundedRuns (isC : Char → Bool) (lo hi : Nat) (l : List Char) : List (List Char) :=
  boundedRunsF isC lo hi l.length l

/-- Global matches of a regex of shape `[class]{lo,}`: every maximal
class run of length at least `lo`, taken whole. -/
def minRuns (isC : Char → Bool) (lo : Nat) : List Char → List (List Char)
  | [] => []
  | c :: rest =>
      if isC c then
        (if lo ≤ (c :: rest.takeWhile isC).length then [c :: rest.takeWhile isC] else [])
          ++ minRuns isC lo (rest.dropWhile isC)
      else minRuns isC lo rest
termination_by l => l.length
decreasing_by
  · have h : (rest.dropWhile isC).length ≤ rest.length :=
      (List.dropWhile_sublist isC).length_le
    simp
    omega
  · simp

/-- CJK 2-3 character tokens `query.match(/[一-龯]{2,3}/g) || []`
(route.ts lines 584 and 759). -/
def kanjiTokens23 (query : String) : List String :=
  (boundedRuns isKanji 2 3 query.data).map String.mk

/-- Membership test of the semantic prefilter name class
`/^[ぁ-ゖァ-ヺ一-龯]{2,10}$/` (route.ts line 764). -/
def isNameShaped (t : String) : Bool :=
  2 ≤ t.length && t.length ≤ 10 && t.data.all (fun c =>
    (0x3041 ≤ c.toNat && c.toNat ≤ 0x3096)
      || (0x30a1 ≤ c.toNat && c.toNat ≤ 0x30fa)
      || isKanji c)

/-- Boolean prefix test on character lists. -/
def listStartsWith : List Char → List Char → Bool
  | _, [] => true
  | [], _ :: _ => false
  | a :: as, b :: bs => a = b && listStartsWith as bs

/-- Model of `s.includes(pat)` at the character-list level. -/
def occursIn (pat : List Char) : List Char → Bool
  | [] => pat.isEmpty
  | c :: rest => listStartsWith (c :: rest) pat || occursIn pat rest

/-- Model of `s.includes(pat)` on strings. -/
def strIncludes (s pat : String) : Bool := occursIn pat.data s.data

/-- Number of non-overlapping left-to-right occurrences of a pattern:
the length of `s.match(new RegExp(pat, "g")) || []` for a literal
(metacharacter-free) pattern. -/
def countOccF (pat : List Char) : Nat → List Char → Nat
  | 0, _ => 0
  | _ + 1, [] => 0
  | fuel + 1, c :: rest =>
      if listStartsWith (c :: rest) pat && !pat.isEmpty then
        1 + countOccF pat fuel (rest.drop (pat.length - 1))
      else countOccF pat fuel rest

/-- Entry point of the occurrence counter (fuel as in `splitRuns`). -/
def countOcc (pat s : List Char) : Nat := countOccF pat s.length s

/-- Regular-expression metacharacters: keywords containing none of these
are matched literally by `new RegExp(keyword, "g")`. -/
def isRegexMeta (c : Char) : Bool :=
  c = '\\' || c = '^' || c = '$' || c = '.' || c = '*' || c = '+' || c = '?'
    || c = '(' || c = ')' || c = '[' || c = ']' || c = '\x7b' || c = '\x7d' || c = '|'

/-- Parenthesis balance scan: for a pattern without character classes or
escapes, the JavaScript `RegExp` constructor throws a `SyntaxError`
exactly when this fails (unmatched or unterminated group). -/
def parenScanOk : List Char → Int → Bool
  | [], d => d == 0
  | c :: rest, d =>
      if c = '(' then parenScanOk rest (d + 1)
      else if c = ')' then decide (0 < d) && parenScanOk rest (d - 1)
      else parenScanOk rest d

/-- JavaScript exceptions that the modelled code can raise. -/
inductive JsError
  | referenceError (varName : String)
  | syntaxError (pattern : String)
  | unmodelledRegex (pattern : String)
deriving DecidableEq

/-- Message of a JavaScript exception, as inspected by the POST catch
handler. -/
def JsError.message : JsError → String
  | .referenceError v => "Cannot access " ++ v ++ " before initialization"
  | .syntaxError p => "Invalid regular expression: " ++ p
  | .unmodelledRegex p => "unmodelled regular expression: " ++ p

/-- Model of `(text.match(new RegExp(pattern, "g")) || []).length`
(route.ts line 699).  A metacharacter-free pattern matches literally.  A
pattern with unbalanced parentheses (and no class or escape) makes the
`RegExp` constructor throw a `SyntaxError` — e.g. the single character
`(` raises `SyntaxError: Invalid regular expression: Unterminated
group`.  Patterns using other metacharacter behaviour are outside this
literal model and are mapped to a distinguished error value. -/
def jsRegexMatchCount (pattern text : String) : Except JsError Nat :=
  if pattern.data.all (fun c => !isRegexMeta c) then
    .ok (countOcc pattern.data text.data)
  else if !pattern.data.contains '[' && !pattern.data.contains '\\'
      && !parenScanOk pattern.data 0 then
    .error (.syntaxError pattern)
  else .error (.unmodelledRegex pattern)

/-- Duplicate removal keeping the first occurrence: the observable
content of a JavaScript `Set` built by successive insertions, read back
with `Array.from`. -/
def dedupKeepAux (seen : List String) : List String → List String
  | [] => []
  | x :: rest =>
      if seen.contains x then dedupKeepAux seen rest
      else x :: dedupKeepAux (x :: seen) rest

/-- Entry point of the duplicate removal. -/
def dedupKeep (l : List String) : List String := dedupKeepAux [] l

/-- Base keywords of `keywordSearch` (route.ts line 583):
`query.toLowerCase().split(/\s+/).filter(Boolean)` unless custom
keywords are passed. -/
def baseKeywordsOf (query : String) : List String :=
  splitTokens isJsSpace (jsToLower query)

/-- Search keywords before expansion (route.ts lines 583-585). -/
def searchKeywordsOf (query : String) (customKeywords : Option (List String)) : List String :=
  dedupKeep ((customKeywords.getD (baseKeywordsOf query)) ++ kanjiTokens23 query)

def fieldExpansions : List (String × List String) := [
  ("生理", ["生理指標", "vas", "visual analog scale", "心拍", "コルチゾール", "fnirs", "生体信号", "生理反応", "血圧", "皮膚電位", "ecg", "心電図", "eeg", "脳波", "emg", "筋電図", "gsr", "皮膚電気反応", "皮膚コンダクタンス", "eog", "眼電図", "hrv", "心拍変動性", "アルファ波", "ベータ波", "シータ波", "ガンマ波", "瞳孔径", "マイクロサッケード", "瞬目", "皮膚温度", "呼吸", "血中酸素", "spo2"]),
  ("指標", ["生理指標", "評価指標", "測定指標", "vas", "心拍変動", "hrv", "バイオマーカー", "客観指標", "主観指標"]),
  ("ux", ["ユーザーエクスペリエンス", "user experience", "ユーザビリティ", "usability", "sus", "system usability scale", "ui", "user interface", "インターフェース", "デザイン", "プロトタイプ", "フィードバック", "アクセシビリティ", "ユニバーサルデザイン", "ユーザーテスト", "使いやすさ", "操作性", "レスポンシブ"]),
  ("ユーザビリティ", ["usability", "sus", "ux", "ユーザーテスト", "タスク分析", "ヒューリスティック評価", "sd法", "ahp", "感性工学", "操作性", "使いやすさ", "インタラクション", "プロトタイプ", "ワイヤーフレーム"]),
  ("デザイン", ["ui", "ux", "インターフェース", "レイアウト", "色彩", "タイポグラフィ", "アイコン", "ナビゲーション", "プロトタイピング", "フィードバック", "アフォーダンス", "メンタルモデル"]),
  ("開眼", ["開眼安静", "eyes-open resting", "ベースライン", "baseline", "rest state", "安静状態", "pre-task", "事前測定"]),
  ("閉眼", ["閉眼安静", "eyes-closed resting", "eyes closed", "ベースライン", "baseline", "rest state", "安静状態", "pre-task", "事前測定", "リラクゼーション", "瞑想"]),
  ("安静", ["開眼安静", "閉眼安静", "安静状態", "resting state", "baseline", "ベースライン測定", "事前測定", "pre-task", "eyes-open", "eyes-closed"]),
  ("認知", ["認知負荷", "認知工学", "注意", "記憶", "eye-tracking", "fnirs", "認知資源", "認知機能", "ワーキングメモリ", "作業記憶", "注意制御", "処理速度", "マルチタスク", "認知的負荷", "メンタルワークロード", "cognitive load"]),
  ("脳", ["脳波", "eeg", "fnirs", "脳機能", "前頭前野", "脳活動", "神経", "ニューロ", "ブレイン", "brain", "脳血流", "ヘモグロビン", "オキシヘモグロビン", "デオキシヘモグロビン"]),
  ("注意", ["attention", "注意配分", "注意制御", "集中", "集中力", "フォーカス", "選択的注意", "分割注意", "持続的注意"]),
  ("eye", ["eye-tracking", "アイトラッキング", "視線追跡", "眼球運動", "注視", "注視点", "fixation", "saccade", "サッケード", "瞳孔", "pupil", "瞬目", "blink"]),
  ("fnirs", ["機能的近赤外分光法", "functional near-infrared spectroscopy", "脳血流", "ヘモグロビン", "前頭前野", "脳活動", "オキシhb", "デオキシhb"]),
  ("eeg", ["脳波", "electroencephalography", "アルファ波", "ベータ波", "シータ波", "ガンマ波", "デルタ波", "事象関連電位", "erp", "p300", "n400", "電極"]),
  ("emg", ["筋電図", "electromyography", "筋活動", "筋収縮", "表面筋電", "筋疲労", "筋力", "筋緊張"]),
  ("ecg", ["心電図", "electrocardiography", "心拍", "heart rate", "rr間隔", "不整脈", "qrs", "心臓"]),
  ("疲労", ["疲労評価", "眼精疲労", "vdt", "visual display terminal", "主観的疲労感", "全身疲労", "精神疲労", "肉体疲労", "疲労度", "fatigue"]),
  ("ストレス", ["ストレス測定", "コルチゾール", "心拍変動性", "唾液", "生理指標", "ストレス反応", "ストレッサー", "ストレス評価", "心理的ストレス", "生理的ストレス"]),
  ("vr", ["バーチャルリアリティ", "仮想現実", "hmd", "head mounted display", "空間認知", "vr酔い", "没入", "immersion", "モーションキャプチャ", "仮想環境", "3d", "オキュラス", "oculus"]),
  ("ar", ["拡張現実", "augmented reality", "mixed reality", "mr", "ホロレンズ", "hololens"]),
  ("エラー", ["ヒューマンエラー", "sherpa", "作業エラー", "事故防止", "iot", "スリップ", "ラプス", "ミステーク", "human error", "error prevention"]),
  ("高齢者", ["高齢", "ユニバーサルデザイン", "認知機能", "加齢", "タブレット", "elderly", "シニア", "高齢化", "老化", "加齢変化"]),
  ("航空", ["航空安全", "asrs", "レジリエンス", "コンピテンス", "緊急着水", "航空管制", "atc", "パイロット", "フライト", "aviation"]),
  ("チーム", ["チームワーク", "協調", "航空管制", "コミュニケーション", "human factors", "チーム連携", "collaboration", "共同作業"]),
  ("安全", ["安全人間工学", "危険予知", "事故防止", "heinrich", "ヒヤリハット", "リスク評価", "safety", "安全性", "事故分析"]),
  ("感性", ["感性工学", "kansei", "sd法", "semantic differential", "ahp", "analytic hierarchy process", "kj法", "官能評価", "主観評価"]),
  ("統計", ["相関", "回帰", "分散分析", "anova", "t検定", "カイ二乗", "chi-square", "spss", "r言語", "python", "機械学習", "svm", "random forest"]),
  ("機械学習", ["machine learning", "ai", "人工知能", "neural network", "deep learning", "svm", "random forest", "classification", "分類", "予測"]),
  ("生体力学", ["biomechanics", "姿勢", "posture", "動作解析", "motion analysis", "筋骨格", "kinematic", "kinetic", "force plate", "フォースプレート"]),
  ("姿勢", ["posture", "体位", "立位", "座位", "歩行", "gait", "重心", "center of gravity", "バランス", "平衡"]),
  ("照明", ["lighting", "照度", "lux", "色温度", "演色性", "led", "ブルーライト", "blue light", "視覚疲労", "明度", "輝度"]),
  ("環境", ["environment", "温度", "湿度", "騒音", "noise", "照明", "lighting", "ergonomics", "人間工学的環境"])]

/-- Keyword expansion over the field dictionary (route.ts lines 647-656):
for every search keyword and every table entry whose key is included in
the keyword or includes it, the synonyms are inserted into the set. -/
def expandKeywords (searchKeywords : List String) : List String :=
  dedupKeep (searchKeywords ++ searchKeywords.flatMap (fun kw =>
    fieldExpansions.flatMap (fun fe =>
      if strIncludes kw fe.1 || strIncludes fe.1 kw then fe.2 else [])))

/-- Final (expanded) keyword list of one keyword search. -/
def finalKeywordsOf (query : String) (customKeywords : Option (List String)) : List String :=
  expandKeywords (searchKeywordsOf query customKeywords)

/-- Technical-term test `/^[a-z]+$/.test(kw) && kw.length > 2`. -/
def isAsciiTechTerm (kwL : String) : Bool :=
  kwL.data.all (fun c => 'a' ≤ c && c ≤ 'z') && 2 < kwL.length

/-- Curated Japanese technical terms granting the title bonus
(route.ts line 687). -/
def titleTechListJa : List String :=
  ["生理指標", "ユーザビリティ", "認知負荷", "開眼安静", "脳波", "筋電図"]

/-- Curated technical terms granting the content bonus (route.ts line
711; note the list differs from the title one). -/
def contentTechListJa : List String :=
  ["生理指標", "ユーザビリティ", "認知負荷", "開眼安静", "fnirs", "eye-tracking"]

/-- Content-score tier by occurrence count (route.ts lines 704-707). -/
def contentTier (n : Nat) : Nat :=
  if 5 ≤ n then 7 else if 3 ≤ n then 5 else if 2 ≤ n then 3 else 1

/-- Contribution of the author field for one keyword (route.ts lines
672-681): 25 points for an exact match, 15 for a substring match in
either direction, on a non-empty author. -/
def authorScore (lowerAuthor : String) (kw kwL : String) : Nat × List String :=
  if lowerAuthor.length ≠ 0 then
    if lowerAuthor = kwL then (25, ["著者完全一致:" ++ kw])
    else if strIncludes lowerAuthor kwL || strIncludes kwL lowerAuthor then
      (15, ["著者部分一致:" ++ kw])
    else (0, [])
  else (0, [])

/-- Contribution of the title field for one keyword (route.ts lines
684-696): 12 points for a technical term, 8 otherwise. -/
def titleScore (lowerTitle : String) (kw kwL : String) : Nat × List String :=
  if strIncludes lowerTitle kwL then
    if isAsciiTechTerm kwL || titleTechListJa.contains kw then
      (12, ["タイトル技術用語:" ++ kw])
    else (8, ["タイトル:" ++ kw])
  else (0, [])

/-- Contribution of the content matches for one keyword given the match
count (route.ts lines 698-720). -/
def contentScoreOf (n : Nat) (kw kwL : String) : Nat × List String :=
  if 0 < n then
    if isAsciiTechTerm kwL || contentTechListJa.contains kw then
      (contentTier n + 3, ["本文技術用語:" ++ kw ++ "(" ++ toString n ++ "回)"])
    else (contentTier n, ["本文:" ++ kw ++ "(" ++ toString n ++ "回)"])
  else (0, [])

/-- Keyword loop of the per-document scoring (route.ts lines 669-721),
accumulating the score and the matched-keyword debug strings; the
`RegExp` construction for the content count can throw. -/
def scoreKeywordsGo (lowerContent lowerTitle lowerAuthor : String) :
    List String → Nat → List String → Except JsError (Nat × List String)
  | [], score, matched => .ok (score, matched)
  | kw :: rest, score, matched =>
      let kwL := jsToLower kw
      let a := authorScore lowerAuthor kw kwL
      let t := titleScore lowerTitle kw kwL
      match jsRegexMatchCount kwL lowerContent with
      | .error e => .error e
      | .ok n =>
          let c := contentScoreOf n kw kwL
          scoreKeywordsGo lowerContent lowerTitle lowerAuthor rest
            (score + a.1 + t.1 + c.1) (matched ++ a.2 ++ t.2 ++ c.2)

/-- Per-document score of `keywordSearch` (route.ts lines 660-741):
keyword contributions plus the field-cohesion bonus of 5 points when at
least three final keywords match the content or title. -/
def scoreDocE (finalKeywords : List String) (doc : KDoc) :
    Except JsError (Nat × List String) :=
  let lowerContent := jsToLower doc.content
  let lowerTitle := jsToLower doc.title
  let lowerAuthor := jsToLower (doc.author.getD "")
  match scoreKeywordsGo lowerContent lowerTitle lowerAuthor finalKeywords 0 [] with
  | .error e => .error e
  | .ok sm =>
      let fieldKeywordCount := (finalKeywords.filter (fun k =>
        strIncludes lowerContent (jsToLower k) || strIncludes lowerTitle (jsToLower k))).length
      if 3 ≤ fieldKeywordCount then
        .ok (sm.1 + 5, sm.2 ++ ["分野統合ボーナス(" ++ toString fieldKeywordCount ++ "キーワード)"])
      else .ok sm

/-- Mutation `doc.searchScore = score; doc.matchDetails = matched`
performed on matching documents. -/
def setScore (doc : KDoc) (s : Nat) (m : List String) : KDoc :=
  { doc with searchScore := some s, matchDetails := some m }

/-- The `base.filter` pass of `keywordSearch`: keep (and annotate) the
documents with positive score; the first regex failure aborts the whole
search, exactly as the exception would in the source. -/
def scoreAllE (finalKeywords : List String) : List KDoc → Except JsError (List KDoc)
  | [] => .ok []
  | d :: rest =>
      match scoreDocE finalKeywords d with
      | .error e => .error e
      | .ok sm =>
          match scoreAllE finalKeywords rest with
          | .error e => .error e
          | .ok tl => .ok ((if 0 < sm.1 then [setScore d sm.1 sm.2] else []) ++ tl)

/-- Stable insertion of an element into a list sorted by a key in
descending order; the element goes before the first strictly smaller
key, hence after earlier elements of equal key. -/
def insertDescBy {α κ : Type} [LinearOrder κ] (key : α → κ) (a : α) : List α → List α
  | [] => [a]
  | b :: l => if key b ≤ key a then a :: b :: l else b :: insertDescBy key a l

/-- Stable descending sort by key, modelling the stable JavaScript
`Array.prototype.sort` with comparator `(x, y) => key(y) - key(x)`. -/
def sortDescBy {α κ : Type} [LinearOrder κ] (key : α → κ) : List α → List α
  | [] => []
  | a :: l => insertDescBy key a (sortDescBy key l)

/-- Embedding of `keywordSearch(base, customKeywords)` (route.ts lines
580-752): score every document, keep positive scores, sort by score
descending (stable) and truncate to the top five. -/
def keywordSearchE (base : List KDoc) (query : String)
    (customKeywords : Option (List String)) : Except JsError (List KDoc) :=
  match scoreAllE (finalKeywordsOf query customKeywords) base with
  | .error e => .error e
  | .ok results =>
      .ok ((sortDescBy (fun d => d.searchScore.getD 0) results).take 5)


/-- ASCII lower-case letter class `[a-z]`. -/
def isLowerAZ (c : Char) : Bool := 'a' ≤ c && c ≤ 'z'

/-- Character class `[a-z-]` of the english-term regex. -/
def isEngChar (c : Char) : Bool := isLowerAZ c || c = '-'

/-- Tokenization of a letters-and-hyphens region into maximal letter runs
and maximal hyphen runs. -/
def lhTokens : List Char → List (List Char)
  | [] => []
  | c :: rest =>
      if isLowerAZ c then
        (c :: rest.takeWhile isLowerAZ) :: lhTokens (rest.dropWhile isLowerAZ)
      else
        (c :: rest.takeWhile (fun x => !isLowerAZ x))
          :: lhTokens (rest.dropWhile (fun x => !isLowerAZ x))
termination_by l => l.length
decreasing_by
  · have h : (rest.dropWhile isLowerAZ).length ≤ rest.length :=
      (List.dropWhile_sublist isLowerAZ).length_le
    simp
    omega
  · have h : (rest.dropWhile (fun x => !isLowerAZ x)).length ≤ rest.length :=
      (List.dropWhile_sublist (fun x => !isLowerAZ x)).length_le
    simp
    omega

/-- Greedy collection of the `(-[a-z]+)*` part of one english-term match:
from a token stream, take successive pairs of a single-hyphen token and a
letter-run token. -/
def engChainGo : List (List Char) → List (List Char) × List (List Char)
  | h :: l :: rest =>
      if h = ['-'] && isLowerAZ (l.headD '-') then
        let pr := engChainGo rest
        (l :: pr.1, pr.2)
      else ([], h :: l :: rest)
  | l => ([], l)


/-- Helper bound used for the termination of `engChains`: the remainder
returned by `engChainGo` is never longer than its input. -/
theorem engChainGo_snd_le : ∀ l : List (List Char), (engChainGo l).2.length ≤ l.length
  | [] => by simp [engChainGo]
  | [t] => by simp [engChainGo]
  | h :: l :: rest => by
      rw [engChainGo]
      split
      · have hr := engChainGo_snd_le rest
        simpa using Nat.le_trans hr (by omega)
      · simp

/-- Chains of letter runs joined by single hyphens, extracted from a
token stream. -/
def engChains : List (List Char) → List (List (List Char))
  | [] => []
  | t :: rest =>
      if isLowerAZ (t.headD '-') then
        (t :: (engChainGo rest).1) :: engChains (engChainGo rest).2
      else engChains rest
termination_by l => l.length
decreasing_by
  · have h := engChainGo_snd_le rest
    simp
    omega
  · simp

/-- Match produced by one chain of letter runs `r1 - r2 - ... - rk` under
the regex `[a-z]+(-[a-z]+)*[a-z]`: backtracking drops trailing
single-letter segments (the final `[a-z]` needs the last kept segment to
hold at least two letters, or the match reduces to the first run, itself
needing two letters).  The dropped single-letter segments contain no
match of their own. -/
def chainMatch : List (List Char) → Option (List Char)
  | [] => none
  | r1 :: tail =>
      let keptTail := ((tail.reverse).dropWhile (fun r => r.length < 2)).reverse
      if keptTail.isEmpty then
        if 2 ≤ r1.length then some r1 else none
      else some (r1 ++ keptTail.flatMap (fun r => '-' :: r))

/-- Global matches of the english-term extraction regex
`/[a-z]+(-[a-z]+)*[a-z]/g` (route.ts line 868): matches never cross a
character outside `[a-z-]`, so the string splits into independent
regions, each tokenized into letter/hyphen runs and grouped into
single-hyphen chains. -/
def englishTermsOf (s : List Char) : List (List Char) :=
  (splitRuns (fun c => !isEngChar c) s).flatMap
    (fun region => (engChains (lhTokens region)).filterMap chainMatch)

/-- Stop list of the english-term extraction (route.ts line 870). -/
def dynStop : List String := ["and", "the", "with", "for", "that", "this", "from"]

/-- Katakana class `[ア-ヺー]` of the dynamic keyword extraction. -/
def isKataDyn (c : Char) : Bool :=
  (0x30a2 ≤ c.toNat && c.toNat ≤ 0x30fa) || c = 'ー'

/-- Literal characters of the (miswritten) class `[ひらがなカタカナ]` in
the compound regex: it denotes the seven listed characters, not the two
scripts. -/
def isCompB (c : Char) : Bool :=
  c = 'ひ' || c = 'ら' || c = 'が' || c = 'な' || c = 'カ' || c = 'タ' || c = 'ナ'

/-- Third class `[一-龯ひらがなカタカナ]` of the compound regex. -/
def isCompC (c : Char) : Bool := isKanji c || isCompB c

/-- Global matches of the compound regex
`/[一-龯]+[ひらがなカタカナ][一-龯ひらがなカタカナ]*/g` (route.ts line
880): a maximal kanji run whose following character is one of the seven
class-B characters, extended greedily through class C; backtracking
cannot rescue a failed match because shortening the kanji run leaves a
kanji (never class B) in the middle position. -/
def compoundRuns : List Char → List (List Char)
  | [] => []
  | c :: rest =>
      if isKanji c then
        let arun := c :: rest.takeWhile isKanji
        let after := rest.dropWhile isKanji
        if h2 : after.isEmpty then []
        else
          let b := after.headD ' '
          let rest2 := after.tail
          if isCompB b then
            (arun ++ b :: rest2.takeWhile isCompC)
              :: compoundRuns (rest2.dropWhile isCompC)
          else compoundRuns after
      else compoundRuns rest
termination_by l => l.length
decreasing_by
  · have h1 : ((rest.dropWhile isKanji).tail.dropWhile isCompC).length
        ≤ (rest.dropWhile isKanji).tail.length :=
      (List.dropWhile_sublist isCompC).length_le
    have h2 : (rest.dropWhile isKanji).length ≤ rest.length :=
      (List.dropWhile_sublist isKanji).length_le
    have h3 : (rest.dropWhile isKanji).tail.length = (rest.dropWhile isKanji).length - 1 :=
      List.length_tail _
    have h4 : 0 < (rest.dropWhile isKanji).length := by
      rename_i hne
      simp [List.isEmpty_iff] at hne
      exact List.length_pos.mpr hne
    simp
    omega
  · have h2 : (rest.dropWhile isKanji).length ≤ rest.length :=
      (List.dropWhile_sublist isKanji).length_le
    simp
    omega
  · simp

/-- Model of the acronym extraction
`content.match(/[A-Z]{2,5}(?![a-z])/g) || []` (route.ts line 886).  The
extraction is applied to `doc.content.toLowerCase()`, which contains no
ASCII upper-case letter, so the match list is always empty; the lemma
`jsToLower_no_upper` discharges this. -/
def acronymTokens (s : String) : List String := []

/-- Dynamic keywords contributed by one document (route.ts lines
859-889): english terms over the stop list, katakana runs of length at
least three, kanji compounds of length at least three, and (vacuous)
acronyms, collected only when some query word occurs in the lowered
content or title. -/
def docDynKeywords (queryWords : List String) (doc : KDoc) : List String :=
  let content := jsToLower doc.content
  let title := jsToLower doc.title
  let hasQueryMatch := queryWords.any (fun w =>
    strIncludes content w || strIncludes title w)
  if hasQueryMatch then
    let eng := ((englishTermsOf content.data).map String.mk).filter
      (fun t => 2 < t.length && !dynStop.contains t)
    let kata := (minRuns isKataDyn 3 content.data).map String.mk
    let comps := ((compoundRuns content.data).map String.mk).filter
      (fun t => 3 ≤ t.length)
    eng ++ kata ++ comps ++ acronymTokens content
  else []

/-- Embedding of `extractDynamicKeywords` (route.ts lines 851-893):
query words of length above one, per-document extraction, set
deduplication, first ten kept. -/
def extractDynamicKeywords (query : String) (documents : List KDoc) : List String :=
  let queryWords := (splitTokens isDynDelim (jsToLower query)).filter
    (fun w => 1 < w.length)
  (dedupKeep (documents.flatMap (docDynKeywords queryWords))).take 10

/-- Semantic-mode prefilter (route.ts lines 757-792): name-shaped or
longer-than-two keywords restrict the candidate pool to documents whose
author, title or content mentions one of the search keywords; with no
such keywords the pool stays unrestricted. -/
def prefilterCandidates (base : List KDoc) (query : String) : List KDoc :=
  let searchKeywords := dedupKeep (baseKeywordsOf query ++ kanjiTokens23 query)
  let nameKeywords := searchKeywords.filter isNameShaped
  let technicalKeywords := searchKeywords.filter (fun k => 2 < k.length)
  if 0 < nameKeywords.length || 0 < technicalKeywords.length then
    base.filter (fun doc =>
      let lowerContent := jsToLower doc.content
      let lowerTitle := jsToLower doc.title
      let lowerAuthor := jsToLower (doc.author.getD "")
      let nameMatch := nameKeywords.any (fun name =>
        if lowerAuthor.length ≠ 0 then
          strIncludes lowerAuthor name || strIncludes name lowerAuthor
            || strIncludes lowerTitle name || strIncludes lowerContent name
        else strIncludes lowerTitle name || strIncludes lowerContent name)
      let techMatch := technicalKeywords.any (fun tech =>
        strIncludes lowerContent tech || strIncludes lowerTitle tech)
      nameMatch || techMatch || searchKeywords.any (fun k =>
        strIncludes lowerContent k || strIncludes lowerTitle k))
  else base

/-- Fallback vector built by `generateEmbedding` on oracle failure:
`new Array(1536).fill(0).map(() => Math.random())`, with the random
source modelled as a function of the slot position. -/
def fallbackVec (rand : Nat → Rat) : List Rat := (List.range 1536).map rand

/-- Embedding of `generateEmbedding` (route.ts lines 895-908): truncate
the input to 8000 characters, call the embedding oracle, and on failure
substitute the random fallback vector instead of propagating the
error. -/
def generateEmbedding (oracle : String → Except Unit (List Rat)) (rand : Nat → Rat)
    (text : String) : List Rat :=
  match oracle (String.mk (text.data.take 8000)) with
  | .ok v => v
  | .error _ => fallbackVec rand

/-- Embedding of `cosineSimilarity` (route.ts lines 910-926) over
rationals, parameterized by the square-root function (`Math.sqrt` acts
on JavaScript floats; the claims below depend only on sign and
comparison facts that hold for any square root). -/
def cosineSimilarity (sqrt : Rat → Rat) (vecA vecB : List Rat) : Rat :=
  if vecA.length ≠ vecB.length then 0
  else
    let dotProduct := ((vecA.zip vecB).map (fun p => p.1 * p.2)).sum
    let normA := (vecA.map (fun x => x * x)).sum
    let normB := (vecB.map (fun x => x * x)).sum
    if normA = 0 ∨ normB = 0 then 0
    else dotProduct / (sqrt normA * sqrt normB)

/-- Executable stand-in for `Math.sqrt` on the rational value model: the
integer square root of the floor.  Witness computations below only use
it at points where any genuine square root agrees on the required
comparisons. -/
def ratSqrt (x : Rat) : Rat := (Nat.sqrt x.num.toNat : Rat)

/-- Model of `getIndexedDocIds` from `src/lib/vectorStore.ts`. -/
def getIndexedDocIds (kvEnabled : Bool) (st : VecState) : List String :=
  if kvEnabled then st.index else []

/-- Model of `getDocVectors` from `src/lib/vectorStore.ts`. -/
def getDocVectors (kvEnabled : Bool) (st : VecState) (docId : String) :
    Option (List VChunk) :=
  if kvEnabled then getEntry docId st.store else none

/-- Best per-chunk similarity (route.ts lines 811-815): starting from 0,
keep the largest cosine similarity between the query embedding and the
stored chunk embeddings. -/
def bestChunkSim (sqrt : Rat → Rat) (queryEmbedding : List Rat)
    (vecs : List VChunk) : Rat :=
  vecs.foldl (fun best ch =>
    let sim := cosineSimilarity sqrt queryEmbedding ch.embedding
    if best < sim then sim else best) 0

/-- Candidate-scoring loop of `semanticSearch` (route.ts lines 805-823):
an indexed document with stored non-empty chunk vectors is scored from
those chunks without any oracle call; any other document gets a freshly
computed document embedding (one oracle invocation, counted in the
second component). -/
def semanticScoreGo (sqrt : Rat → Rat) (oracle : String → Except Unit (List Rat))
    (rand : Nat → Rat) (kvE : Bool) (vst : VecState) (queryEmbedding : List Rat) :
    List KDoc → List (KDoc × Rat) × Nat
  | [] => ([], 0)
  | doc :: rest =>
      let pr := semanticScoreGo sqrt oracle rand kvE vst queryEmbedding rest
      if (getIndexedDocIds kvE vst).contains doc.id then
        match getDocVectors kvE vst doc.id with
        | some vecs =>
            if vecs.length ≠ 0 then
              ((doc, bestChunkSim sqrt queryEmbedding vecs) :: pr.1, pr.2)
            else
              ((doc, cosineSimilarity sqrt queryEmbedding
                (generateEmbedding oracle rand (String.mk (doc.content.data.take 4000)))) :: pr.1,
               pr.2 + 1)
        | none =>
            ((doc, cosineSimilarity sqrt queryEmbedding
              (generateEmbedding oracle rand (String.mk (doc.content.data.take 4000)))) :: pr.1,
             pr.2 + 1)
      else
        ((doc, cosineSimilarity sqrt queryEmbedding
          (generateEmbedding oracle rand (String.mk (doc.content.data.take 4000)))) :: pr.1,
         pr.2 + 1)

/-- Body of `semanticSearch` before its catch handler (route.ts lines
754-841).  More than ten prefilter candidates: keyword scoring over the
candidate set, no embedding calls.  One to ten candidates: query
embedding plus per-candidate scoring, stable descending sort by
similarity, top five, similarity floor 0.1.  No candidates: keyword
search over the full corpus with the outer keywords plus the dynamic
keywords.  The second component counts embedding-oracle invocations. -/
def semanticBody (sqrt : Rat → Rat) (oracle : String → Except Unit (List Rat))
    (rand : Nat → Rat) (kvE : Bool) (vst : VecState)
    (base : List KDoc) (query : String) : Except JsError (List KDoc) × Nat :=
  let candidates := prefilterCandidates base query
  if 10 < candidates.length then
    (keywordSearchE candidates query none, 0)
  else if 0 < candidates.length then
    let queryEmbedding := generateEmbedding oracle rand query
    let pr := semanticScoreGo sqrt oracle rand kvE vst queryEmbedding candidates
    (.ok (((((sortDescBy (fun p => p.2) pr.1).take 5).filter
      (fun p => (1 : Rat)/10 < p.2)).map (fun p => p.1))), 1 + pr.2)
  else
    let keywords := splitTokens isOuterDelim (jsToLower query)
    let dynamicKeywords := extractDynamicKeywords query base
    (keywordSearchE base query (some (keywords ++ dynamicKeywords)), 0)

/-- Embedding of `semanticSearch` including the catch handler: a thrown
error inside the body degrades to the plain keyword search over the full
corpus (route.ts lines 837-840). -/
def semanticSearchE (sqrt : Rat → Rat) (oracle : String → Except Unit (List Rat))
    (rand : Nat → Rat) (kvE : Bool) (vst : VecState)
    (base : List KDoc) (query : String) : Except JsError (List KDoc) × Nat :=
  let pr := semanticBody sqrt oracle rand kvE vst base query
  match pr.1 with
  | .ok l => (.ok l, pr.2)
  | .error _ => (keywordSearchE base query none, pr.2)

/-- Responses the POST chat handler can produce, tagged by their source
branch in route.ts. -/
inductive ChatResp
  | missingMessage
  | apiKeyNotConfigured
  | noRelevantData (message : String)
  | lowQuality (message : String)
  | emptyAiResponse
  | success (response : String) (sources : List String)
  | authFailed
  | quotaExceeded
  | chatProcessingFailed
deriving DecidableEq

/-- Const bindings of the POST try block (route.ts lines 46-92) that are
initialized before the context construction at line 93 runs. -/
def declaredBeforeContext : List String :=
  ["body", "message", "searchMode", "history", "apiKey", "relevantKnowledge",
   "MAX_DOCS", "MAX_CHARS_PER_DOC"]

/-- JavaScript temporal-dead-zone rule: reading a block-scoped `const`
before its declaration statement has executed throws a
`ReferenceError`. -/
def tdzRead (declared : List String) (v : String) : Except JsError Unit :=
  if declared.contains v then .ok () else .error (.referenceError v)

/-- Embedding of the POST try block of the current chat handler
(route.ts lines 46-227), parameterized by the outcome of the knowledge
search (the handler is analyzed for requests on which the search
returned normally) and by the completion-oracle text.  The context
construction at line 93 reads the const `finalRelevantKnowledge`
declared only at line 138; the statements after that read are translated
as written even though they cannot run.  The cited-sources construction
is abstracted to the document titles (it is unreachable in every
modelled path). -/
def chatTryBody (message : String) (apiKeyOk : Bool)
    (relevantKnowledge : List KDoc) (aiText : String) : Except JsError ChatResp :=
  if (jsTrim message).length = 0 then .ok .missingMessage
  else if !apiKeyOk then .ok .apiKeyNotConfigured
  else
    match tdzRead declaredBeforeContext "finalRelevantKnowledge" with
    | .error e => .error e
    | .ok _ =>
        if relevantKnowledge.length = 0 then .ok (.noRelevantData message)
        else
          let highQualityResults := relevantKnowledge.filter (fun doc =>
            doc.searchScore.isNone || 5 ≤ doc.searchScore.getD 0)
          if highQualityResults.length = 0 then .ok (.lowQuality message)
          else
            let finalRelevantKnowledge :=
              if 0 < highQualityResults.length then highQualityResults
              else relevantKnowledge.take 1
            let aiResponse := jsTrim aiText
            if aiResponse.length = 0 then .ok .emptyAiResponse
            else .ok (.success aiResponse (finalRelevantKnowledge.map (fun d => d.title)))

/-- Catch handler of POST (route.ts lines 229-251): error messages
mentioning the API key map to 401, quota or billing to 402, anything
else to the generic 500 response. -/
def chatCatch (e : JsError) : ChatResp :=
  if strIncludes e.message "API key" then .authFailed
  else if strIncludes e.message "quota" || strIncludes e.message "billing" then
    .quotaExceeded
  else .chatProcessingFailed

/-- Embedding of the POST chat handler: the try body with its catch. -/
def POSThandler (message : String) (apiKeyOk : Bool)
    (relevantKnowledge : List KDoc) (aiText : String) : ChatResp :=
  match chatTryBody message apiKeyOk relevantKnowledge aiText with
  | .ok r => r
  | .error e => chatCatch e


/-- Whether one (metacharacter-free) keyword matches a document at all:
an author hit (exact or substring, on a non-empty author), a title hit,
or at least one content occurrence. -/
def kwMatchesDoc (kw : String) (d : KDoc) : Bool :=
  let kwL := jsToLower kw
  let la := jsToLower (d.author.getD "")
  (la.length ≠ 0 && (la = kwL || strIncludes la kwL || strIncludes kwL la))
    || strIncludes (jsToLower d.title) kwL
    || 0 < countOcc kwL.data (jsToLower d.content).data

/-- Whether a document has a non-empty author field exactly equal to the
keyword, as the scoring compares them (both lower-cased). -/
def authorExactMatch (kw : String) (d : KDoc) : Bool :=
  (jsToLower (d.author.getD "")).length ≠ 0
    && jsToLower (d.author.getD "") = jsToLower kw

/-- Whether a keyword contributes no author and no title points to a
document, so any points come from content matches only. -/
def contentOnlyFor (kw : String) (d : KDoc) : Bool :=
  (authorScore (jsToLower (d.author.getD "")) kw (jsToLower kw)).1 = 0
    && (titleScore (jsToLower d.title) kw (jsToLower kw)).1 = 0

/-- Specification-side test: the document is scored from stored chunk
embeddings (it is indexed and has a non-empty stored chunk list). -/
def specUsesStored (kvE : Bool) (vst : VecState) (doc : KDoc) : Bool :=
  (getIndexedDocIds kvE vst).contains doc.id
    && ((getDocVectors kvE vst doc.id).getD []).length ≠ 0

/-- Specification-side score of one candidate, as the claim states it:
the maximum cosine similarity of the query embedding against the stored
chunk embeddings, or against a freshly computed document embedding. -/
def specCandidateScore (sqrt : Rat → Rat) (oracle : String → Except Unit (List Rat))
    (rand : Nat → Rat) (kvE : Bool) (vst : VecState) (qE : List Rat) (doc : KDoc) : Rat :=
  if specUsesStored kvE vst doc then
    bestChunkSim sqrt qE ((getDocVectors kvE vst doc.id).getD [])
  else
    cosineSimilarity sqrt qE
      (generateEmbedding oracle rand (String.mk (doc.content.data.take 4000)))

/-- Specification-side count of candidates needing a fresh document
embedding. -/
def specFreshCount (kvE : Bool) (vst : VecState) (docs : List KDoc) : Nat :=
  (docs.filter (fun d => !specUsesStored kvE vst d)).length

/-- Specification-side result of the 1-to-10-candidate semantic branch:
score every candidate, sort descending, keep the top five, drop scores
at or below the 0.1 floor. -/
def specSemanticTop5 (sqrt : Rat → Rat) (oracle : String → Except Unit (List Rat))
    (rand : Nat → Rat) (kvE : Bool) (vst : VecState) (base : List KDoc)
    (query : String) : List KDoc :=
  let qE := generateEmbedding oracle rand query
  let scored := (prefilterCandidates base query).map
    (fun d => (d, specCandidateScore sqrt oracle rand kvE vst qE d))
  (((sortDescBy (fun p => p.2) scored).take 5).filter
    (fun p => (1 : Rat)/10 < p.2)).map (fun p => p.1)


/-- Decidable equality for `Except` results, used to evaluate the model
on concrete inputs. -/
instance {e a : Type} [DecidableEq e] [DecidableEq a] : DecidableEq (Except e a) := fun x y =>
  match x, y with
  | .ok u, .ok v => if h : u = v then isTrue (by rw [h]) else isFalse (by simp [h])
  | .error u, .error v => if h : u = v then isTrue (by rw [h]) else isFalse (by simp [h])
  | .ok _, .error _ => isFalse (by simp)
  | .error _, .ok _ => isFalse (by simp)

-- ===== DEFINITIONS CONTINUE =====

-- ===== THEOREMS =====

/-- C10: in the current chat handler any POST request that passes the
message and API-key validation and whose knowledge search returns
normally (with any result list, including the empty one) hits the read
of the const `finalRelevantKnowledge` at route.ts line 93 before its
declaration at line 138, raising a ReferenceError; the catch handler
maps it to the generic 500 "Chat processing failed" response, so the
empty-result template, the low-quality template and the
completion-oracle call are unreachable on those paths. -/
theorem chatPOST_tdz (message : String) (relevantKnowledge : List KDoc) (aiText : String)
    (hmsg : (jsTrim message).length ≠ 0) :
    chatTryBody message true relevantKnowledge aiText
        = .error (.referenceError "finalRelevantKnowledge")
      ∧ POSThandler message true relevantKnowledge aiText = .chatProcessingFailed := by
  have hno : tdzRead declaredBeforeContext "finalRelevantKnowledge"
      = Except.error (JsError.referenceError "finalRelevantKnowledge") := rfl
  have hbody : chatTryBody message true relevantKnowledge aiText
      = .error (.referenceError "finalRelevantKnowledge") := by
    simp [chatTryBody, hmsg, hno]
  refine ⟨hbody, ?_⟩
  simp [POSThandler, hbody]
  rfl

/-- Witness for C10 at the concrete request "hello". -/
theorem chatPOST_tdz_witness :
    (jsTrim "hello").length ≠ 0
      ∧ POSThandler "hello" true [] "ok" = .chatProcessingFailed :=
  ⟨by decide, (chatPOST_tdz "hello" [] "ok" (by decide)).2⟩

/-- C2 (code-bug evaluation): a valid request "12345" with a configured
key whose search returns zero documents does not get the templated
no-relevant-data response with empty sources that the specification
prescribes; the handler instead raises the TDZ ReferenceError and
returns the generic 500 response. -/
theorem chatPOST_zero_results_eval :
    chatTryBody "12345" true [] "answer"
        = .error (.referenceError "finalRelevantKnowledge")
      ∧ POSThandler "12345" true [] "answer" = .chatProcessingFailed
      ∧ POSThandler "12345" true [] "answer" ≠ .noRelevantData "12345" := by
  refine ⟨rfl, rfl, by decide⟩

theorem chunkChars_join (maxLen : Nat) : (l : List Char) → (chunkChars maxLen l).flatten = l
  | [] => by simp [chunkChars]
  | c :: rest => by
      rw [chunkChars]
      simp only [List.flatten_cons]
      rw [chunkChars_join maxLen (rest.drop (maxLen - 1))]
      simp [List.take_append_drop]
termination_by l => l.length
decreasing_by
  simp [List.length_drop]
  omega

theorem string_mk_append (a b : List Char) :
    String.mk a ++ String.mk b = String.mk (a ++ b) := rfl

theorem string_join_mk_aux (ls : List (List Char)) (a : List Char) :
    (ls.map String.mk).foldl (· ++ ·) (String.mk a) = String.mk (a ++ ls.flatten) := by
  induction ls generalizing a with
  | nil => simp
  | cons x xs ih =>
      simp only [List.map_cons, List.foldl_cons, string_mk_append, ih,
        List.flatten_cons, List.append_assoc]

theorem string_join_mk (ls : List (List Char)) :
    String.join (ls.map String.mk) = String.mk ls.flatten := by
  have h := string_join_mk_aux ls []
  simpa [String.join] using h

/-- C4: for every string `text`, concatenating the chunks returned by
`chunkText(text)` in order yields exactly `text` (including the empty
string and lengths that are not a multiple of the chunk size 1500). -/
theorem chunkText_roundtrip (text : String) : String.join (chunkText text) = text := by
  unfold chunkText chunkTextWith
  rw [string_join_mk, chunkChars_join]


theorem getEntry_setEntry_ne (k k2 : String) (v : List VChunk)
    (l : List (String × List VChunk)) (h : k ≠ k2) :
    getEntry k (setEntry k2 v l) = getEntry k l := by
  induction l with
  | nil => simp [setEntry, getEntry, h, Ne.symm h]
  | cons p rest ih =>
      by_cases hp : p.1 = k2
      · simp [setEntry, getEntry, hp, Ne.symm h]
      · simp only [setEntry, getEntry, hp, if_false]
        by_cases hk : p.1 = k
        · simp [getEntry, hk]
        · simp [getEntry, hk, ih]

theorem storeDocVectors_other (kvE : Bool) (oracle : List String → Except Unit (List (List Rat)))
    (docId : String) (text : String) (maxChars : Option Nat) (st st2 : VecState) (n : Nat)
    (id : String) (hne : docId ≠ id)
    (hres : storeDocVectors kvE oracle docId text maxChars st = .ok (st2, n)) :
    getEntry id st2.store = getEntry id st.store
      ∧ (id ∈ st.index → id ∈ st2.index) := by
  unfold storeDocVectors at hres
  by_cases hk : kvE
  · simp only [hk, Bool.not_true, Bool.false_eq_true, if_false] at hres
    split at hres
    · cases hres
      exact ⟨getEntry_setEntry_ne id docId [] st.store (Ne.symm hne), fun h => h⟩
    · split at hres
      · cases hres
      · split at hres
        · cases hres
          refine ⟨getEntry_setEntry_ne id docId _ st.store (Ne.symm hne), fun h => h⟩
        · cases hres
          refine ⟨getEntry_setEntry_ne id docId _ st.store (Ne.symm hne), fun h => ?_⟩
          simp [h]
  · simp only [hk] at hres
    cases hres
    exact ⟨rfl, fun h => h⟩

theorem ensureGo_untouched (kvE : Bool) (oracle : List String → Except Unit (List (List Rat)))
    (mc : Nat) (id : String) :
    ∀ (slice : List (String × String)) (st : VecState) (pr : List String) (n : Nat),
      (∀ d ∈ slice, d.1 ≠ id) → id ∈ st.index →
      (getEntry id (ensureGo kvE oracle mc slice st pr n).state.store = getEntry id st.store
        ∧ id ∈ (ensureGo kvE oracle mc slice st pr n).state.index
        ∧ (∀ x ∈ (ensureGo kvE oracle mc slice st pr n).processed, x ∈ pr ∨ x ∈ slice.map Prod.fst))
  | [], st, pr, n, hs, hidx => by
      simp [ensureGo]
      exact hidx
  | d :: rest, st, pr, n, hs, hidx => by
      rw [ensureGo]
      split
      · next e heq =>
          refine ⟨rfl, hidx, ?_⟩
          intro x hx
          simp only [List.mem_reverse] at hx
          exact Or.inl hx
      · next st2 k heq =>
          have hd : d.1 ≠ id := hs d (List.mem_cons_self d rest)
          have hother := storeDocVectors_other kvE oracle d.1 d.2 (some mc) st st2 k id hd heq
          have hrec := ensureGo_untouched kvE oracle mc id rest st2 (d.1 :: pr) (n + k)
            (fun x hx => hs x (List.mem_cons_of_mem d hx)) (hother.2 hidx)
          refine ⟨hrec.1.trans hother.1, hrec.2.1, ?_⟩
          intro x hx
          rcases hrec.2.2 x hx with hx2 | hx2
          · rcases List.mem_cons.mp hx2 with hx3 | hx3
            · exact Or.inr (by rw [List.map_cons, hx3]; exact List.mem_cons_self _ _)
            · exact Or.inl hx3
          · exact Or.inr (by rw [List.map_cons]; exact List.mem_cons_of_mem _ hx2)

/-- C9: gradual vectorization is idempotent on already-indexed ids: for
every id already present in the vector index, a further
`ensureVectorsGradual` run never re-vectorizes that id (its stored chunk
list, hence chunk count and embeddings, is unchanged and it stays
indexed), and when every submitted document is already indexed the run
performs no embedding calls and no writes at all. -/
theorem ensureVectorsGradual_idempotent (kvE : Bool)
    (oracle : List String → Except Unit (List (List Rat)))
    (docs : List (String × String)) (perRun maxCharsPerDoc : Nat)
    (st : VecState) (id : String) (hid : id ∈ st.index) :
    getEntry id (ensureVectorsGradual kvE oracle docs perRun maxCharsPerDoc st).state.store
        = getEntry id st.store
      ∧ id ∈ (ensureVectorsGradual kvE oracle docs perRun maxCharsPerDoc st).state.index
      ∧ id ∉ (ensureVectorsGradual kvE oracle docs perRun maxCharsPerDoc st).processed
      ∧ ((∀ d ∈ docs, d.1 ∈ st.index) →
          ensureVectorsGradual kvE oracle docs perRun maxCharsPerDoc st
            = EnsureResult.mk st [] 0) := by
  unfold ensureVectorsGradual
  by_cases hk : kvE
  · simp only [hk, Bool.not_true, Bool.false_eq_true, if_false]
    have hslice : ∀ d ∈ (docs.filter (fun d => !st.index.contains d.1)).take perRun, d.1 ≠ id := by
      intro d hd heq
      have hmem := List.mem_of_mem_take hd
      have := List.of_mem_filter hmem
      simp at this
      exact this (heq ▸ hid)
    have h := ensureGo_untouched kvE oracle maxCharsPerDoc id
      ((docs.filter (fun d => !st.index.contains d.1)).take perRun) st [] 0 hslice hid
    rw [hk] at h
    refine ⟨h.1, h.2.1, ?_, ?_⟩
    · intro hmem
      rcases h.2.2 id hmem with h2 | h2
      · simp at h2
      · rcases List.mem_map.mp h2 with ⟨d, hd, hd2⟩
        exact hslice d hd hd2
    · intro hall
      have hfil : docs.filter (fun d => !st.index.contains d.1) = [] := by
        rw [List.filter_eq_nil_iff]
        intro d hd
        simp
        exact hall d hd
      rw [hfil]
      simp [ensureGo]
  · simp [hk]
    exact hid

/-- Witness for C9: a store holding the indexed id "a"; re-running the
gradual ensure over a document list that only mentions "a" changes
nothing and makes no embedding call. -/
theorem ensureVectorsGradual_idempotent_witness :
    "a" ∈ (VecState.mk ["a"] [("a", [VChunk.mk 0 "x" [1]])]).index
      ∧ ensureVectorsGradual true (fun _ => .error ()) [("a", "x")] 3 8000
          (VecState.mk ["a"] [("a", [VChunk.mk 0 "x" [1]])])
        = EnsureResult.mk (VecState.mk ["a"] [("a", [VChunk.mk 0 "x" [1]])]) [] 0 :=
  ⟨by decide, (ensureVectorsGradual_idempotent true (fun _ => .error ()) [("a", "x")] 3 8000
      (VecState.mk ["a"] [("a", [VChunk.mk 0 "x" [1]])]) "a" (by decide)).2.2.2 (by decide)⟩

/-- C7: the in-process corpus cache is served exactly when the no-cache
header is absent, the time since the last fill is below the TTL, and the
remote version read is non-null and equal to the version recorded at the
last fill (the hypothesis states that a fill has happened, i.e. the
cache array is non-null); consequently, starting from a fresh process, a
second read within the TTL of the first with a stable readable version
counter does not trigger a corpus reload. -/
theorem cache_validity :
    (∀ (st : CacheState) (now : Int) (noCache : Bool) (remote : Option Int),
        st.thesisCache.isSome →
        (cacheUsable st now noCache remote = true ↔
          (noCache = false ∧ now - st.cacheTimestamp < CACHE_DURATION ∧
            ∃ v, remote = some v ∧ st.cacheKVVersion = some v)))
    ∧ (∀ (staticKB : List SeedDoc) (e1 e2 : LoadEnv) (v : Int),
        e1.noCache = false → e2.noCache = false →
        e1.verRead2 = some v → e2.verRead1 = some v →
        e2.now - e1.now < CACHE_DURATION →
        (loadThesisData staticKB e2 (loadThesisData staticKB e1 initialCache).2.2).2.1
          = false) := by
  constructor
  · intro st now noCache remote hsome
    unfold cacheUsable
    cases hver : st.cacheKVVersion with
    | none => simp [hver]
    | some a =>
        cases hrem : remote with
        | none => simp [hver, hrem]
        | some b =>
            simp [hver, hrem, hsome]
            aesop
  · intro staticKB e1 e2 v h1 h2 h3 h4 h5
    have hmiss : cacheUsable initialCache e1.now e1.noCache e1.verRead1 = false := by
      simp [cacheUsable, initialCache]
    have hst1 : (loadThesisData staticKB e1 initialCache).2.2
        = CacheState.mk (some (mergeCorpus staticKB e1.shards e1.legacy e1.memory)) e1.now (some v) := by
      unfold loadThesisData
      rw [hmiss]
      simp [h3]
    rw [hst1]
    unfold loadThesisData
    have hhit : cacheUsable
        (CacheState.mk (some (mergeCorpus staticKB e1.shards e1.legacy e1.memory)) e1.now (some v))
        e2.now e2.noCache e2.verRead1 = true := by
      simp [cacheUsable, h2, h4, h5]
    rw [hhit]
    simp

/-- Witness for C7: two loads at times 0 and 1000 with version 7 stable;
the second does not reload. -/
theorem cache_validity_witness :
    (loadThesisData [] (LoadEnv.mk 1000 false (some 7) (some 7) none none none)
        (loadThesisData [] (LoadEnv.mk 0 false (some 7) (some 7) none none none)
          initialCache).2.2).2.1 = false :=
  cache_validity.2 [] (LoadEnv.mk 0 false (some 7) (some 7) none none none)
    (LoadEnv.mk 1000 false (some 7) (some 7) none none none) 7 rfl rfl rfl rfl (by decide)

/-- C8 counterexample: the merge does not deduplicate blob-shard ids
against the static seed (the id "a" ends up twice in the corpus), and
when the same id sits in the static seed with empty content and in the
memory backend with non-empty content, the empty static variant is the
one retained. -/
theorem mergeCorpus_dup_counterexample :
    ((mergeCorpus [SeedDoc.mk "a" "x" "t" "thesis" none none]
        (some [UpDoc.mk "a" "n" "document" none "y"]) none none).map KDoc.id
      = ["a", "a"])
    ∧ ((mergeCorpus [SeedDoc.mk "b" "" "t" "thesis" none none] none none
        (some [UpDoc.mk "b" "n" "document" none "real"])).map KDoc.content
      = [""]) := by
  refine ⟨rfl, rfl⟩

theorem mergeCorpus_unfold (staticKB : List SeedDoc) (sd ld md : List UpDoc) :
    mergeCorpus staticKB (some sd) (some ld) (some md)
      = (staticKB.map seedToK ++ sd.map upToK
          ++ (ld.filter (fun d =>
              !(((staticKB.map seedToK ++ sd.map upToK).map KDoc.id).contains d.id))).map upToK)
        ++ (md.filter (fun d =>
            !((((staticKB.map seedToK ++ sd.map upToK
                ++ (ld.filter (fun d2 =>
                    !(((staticKB.map seedToK ++ sd.map upToK).map KDoc.id).contains d2.id))).map upToK)).map KDoc.id).contains d.id))).map upToK := by
  unfold mergeCorpus
  by_cases h : sd.length > 0
  · simp [h, List.append_assoc]
  · have hnil : sd = [] := by
      cases sd with
      | nil => rfl
      | cons a l => simp at h
    subst hnil
    simp

theorem map_id_seed (staticKB : List SeedDoc) :
    (staticKB.map seedToK).map KDoc.id = staticKB.map SeedDoc.id := by
  rw [List.map_map]
  rfl

theorem map_id_up (l : List UpDoc) :
    (l.map upToK).map KDoc.id = l.map UpDoc.id := by
  rw [List.map_map]
  rfl

theorem find_append_left (p : KDoc → Bool) (l1 l2 : List KDoc) (x : KDoc)
    (h : l1.find? p = some x) : (l1 ++ l2).find? p = some x := by
  induction l1 with
  | nil => simp at h
  | cons a rest ih =>
      rw [List.cons_append]
      by_cases hp : p a = true
      · rw [List.find?_cons_of_pos _ hp] at h ⊢
        exact h
      · rw [List.find?_cons_of_neg _ (by simpa using hp)] at h ⊢
        exact ih h

theorem find_seed (staticKB : List SeedDoc) (s : SeedDoc)
    (hnd : (staticKB.map SeedDoc.id).Nodup) (hs : s ∈ staticKB) :
    (staticKB.map seedToK).find? (fun d => d.id == s.id) = some (seedToK s) := by
  induction staticKB with
  | nil => cases hs
  | cons t rest ih =>
      rcases List.mem_cons.mp hs with h | h
      · subst h
        rw [List.map_cons, List.find?_cons_of_pos _ (by simp [seedToK])]
      · have hnd2 : (rest.map SeedDoc.id).Nodup := (List.nodup_cons.mp hnd).2
        have hne : t.id ≠ s.id := by
          intro he
          have hm : s.id ∈ rest.map SeedDoc.id := List.mem_map_of_mem _ h
          exact (List.nodup_cons.mp hnd).1 (he ▸ hm)
        rw [List.map_cons, List.find?_cons_of_neg _ (by simp [seedToK, hne])]
        exact ih hnd2 h

/-- C8 (amended): the merge deduplicates only the legacy and memory
backends against the ids already present (first-merged variant wins
regardless of content; empty-content non-static variants get a
metadata placeholder body), while blob-shard documents are appended
unconditionally.  Hence ids are unique in the merged corpus provided
each backend list is internally duplicate-free and the shard ids avoid
the static ids; under those hypotheses a static document is never
overridden: looking its id up in the merged corpus returns the static
variant. -/
theorem mergeCorpus_unique_ids (staticKB : List SeedDoc) (sd ld md : List UpDoc)
    (hs : (staticKB.map SeedDoc.id).Nodup)
    (hsh : (sd.map UpDoc.id).Nodup)
    (hdisj : ∀ d ∈ sd, ¬ d.id ∈ staticKB.map SeedDoc.id)
    (hl : (ld.map UpDoc.id).Nodup)
    (hm : (md.map UpDoc.id).Nodup) :
    ((mergeCorpus staticKB (some sd) (some ld) (some md)).map KDoc.id).Nodup
      ∧ ∀ s ∈ staticKB,
          (mergeCorpus staticKB (some sd) (some ld) (some md)).find?
            (fun d => d.id == s.id) = some (seedToK s) := by
  rw [mergeCorpus_unfold]
  set t1 : List KDoc := staticKB.map seedToK ++ sd.map upToK with ht1
  set lpart : List KDoc := (ld.filter (fun d =>
      !((t1.map KDoc.id).contains d.id))).map upToK with hlp
  set mpart : List KDoc := (md.filter (fun d =>
      !(((t1 ++ lpart).map KDoc.id).contains d.id))).map upToK with hmp
  have ht1ids : t1.map KDoc.id = staticKB.map SeedDoc.id ++ sd.map UpDoc.id := by
    rw [ht1, List.map_append, map_id_seed, map_id_up]
  have ht1nd : (t1.map KDoc.id).Nodup := by
    rw [ht1ids, List.nodup_append]
    exact ⟨hs, hsh, fun a ha hb => by
      rcases List.mem_map.mp hb with ⟨d, hd, hd2⟩
      exact hdisj d hd (by rw [hd2]; exact ha)⟩
  have hlpids : lpart.map KDoc.id
      = (ld.filter (fun d => !((t1.map KDoc.id).contains d.id))).map UpDoc.id := by
    rw [hlp, map_id_up]
  have hlpnd : (lpart.map KDoc.id).Nodup := by
    rw [hlpids]
    exact hl.sublist (List.Sublist.map _ (List.filter_sublist _))
  have hlpdis : ∀ a ∈ t1.map KDoc.id, a ∈ lpart.map KDoc.id → False := by
    intro a ha hb
    rw [hlpids] at hb
    rcases List.mem_map.mp hb with ⟨d, hd, hd2⟩
    have hflt := List.of_mem_filter hd
    have hnm : d.id ∉ t1.map KDoc.id := by
      intro hmem
      simp at hflt
      rcases List.mem_map.mp hmem with ⟨x, hx, hx2⟩
      exact hflt x hx hx2
    exact hnm (by rw [hd2]; exact ha)
  have ht2nd : ((t1 ++ lpart).map KDoc.id).Nodup := by
    rw [List.map_append, List.nodup_append]
    exact ⟨ht1nd, hlpnd, hlpdis⟩
  have hmpids : mpart.map KDoc.id
      = (md.filter (fun d => !(((t1 ++ lpart).map KDoc.id).contains d.id))).map UpDoc.id := by
    rw [hmp, map_id_up]
  have hmpnd : (mpart.map KDoc.id).Nodup := by
    rw [hmpids]
    exact hm.sublist (List.Sublist.map _ (List.filter_sublist _))
  have hmpdis : ∀ a ∈ (t1 ++ lpart).map KDoc.id, a ∈ mpart.map KDoc.id → False := by
    intro a ha hb
    rw [hmpids] at hb
    rcases List.mem_map.mp hb with ⟨d, hd, hd2⟩
    have hflt := List.of_mem_filter hd
    have hnm : d.id ∉ (t1 ++ lpart).map KDoc.id := by
      intro hmem
      simp at hflt
      rcases List.mem_map.mp hmem with ⟨x, hx, hx2⟩
      rcases List.mem_append.mp hx with hx3 | hx3
      · exact hflt.1 x hx3 hx2
      · exact hflt.2 x hx3 hx2
    exact hnm (by rw [hd2]; exact ha)
  constructor
  · rw [List.map_append, List.nodup_append]
    exact ⟨ht2nd, hmpnd, fun a ha hb => hmpdis a ha hb⟩
  · intro s hsmem
    have hfind : (staticKB.map seedToK).find? (fun d => d.id == s.id) = some (seedToK s) :=
      find_seed staticKB s hs hsmem
    have h1 : t1.find? (fun d => d.id == s.id) = some (seedToK s) :=
      find_append_left _ _ _ _ hfind
    have h2 : (t1 ++ lpart).find? (fun d => d.id == s.id) = some (seedToK s) :=
      find_append_left _ _ _ _ h1
    exact find_append_left _ _ _ _ h2

/-- Witness for C8 (amended) at a concrete disjoint-backend instance. -/
theorem mergeCorpus_unique_ids_witness :
    ((mergeCorpus [SeedDoc.mk "a" "x" "t" "thesis" none none]
        (some [UpDoc.mk "b" "n" "document" none "y"])
        (some [UpDoc.mk "a" "n2" "document" none "z"])
        (some [UpDoc.mk "c" "n3" "document" none "w"])).map KDoc.id).Nodup :=
  (mergeCorpus_unique_ids [SeedDoc.mk "a" "x" "t" "thesis" none none]
    [UpDoc.mk "b" "n" "document" none "y"]
    [UpDoc.mk "a" "n2" "document" none "z"]
    [UpDoc.mk "c" "n3" "document" none "w"]
    (by decide) (by decide) (by decide) (by decide) (by decide)).1

theorem mem_insertDescBy {α κ : Type} [LinearOrder κ] (key : α → κ) (a x : α) :
    ∀ l : List α, (x ∈ insertDescBy key a l ↔ x = a ∨ x ∈ l)
  | [] => by simp [insertDescBy]
  | b :: l => by
      unfold insertDescBy
      split
      · simp [List.mem_cons]
      · rw [List.mem_cons, mem_insertDescBy key a x l]
        simp [List.mem_cons]
        tauto

theorem pairwise_insertDescBy {α κ : Type} [LinearOrder κ] (key : α → κ) (a : α) :
    ∀ l : List α, l.Pairwise (fun x y => key y ≤ key x) →
      (insertDescBy key a l).Pairwise (fun x y => key y ≤ key x)
  | [], _ => by simp [insertDescBy]
  | b :: l, h => by
      unfold insertDescBy
      split
      · next hba =>
          refine List.Pairwise.cons ?_ h
          intro z hz
          rcases List.mem_cons.mp hz with hz1 | hz2
          · exact hz1 ▸ hba
          · exact le_trans ((List.pairwise_cons.mp h).1 z hz2) hba
      · next hba =>
          have hlt : key a < key b := not_le.mp hba
          refine List.Pairwise.cons ?_
            (pairwise_insertDescBy key a l (List.pairwise_cons.mp h).2)
          intro z hz
          rcases (mem_insertDescBy key a z l).mp hz with hz1 | hz2
          · exact hz1 ▸ le_of_lt hlt
          · exact (List.pairwise_cons.mp h).1 z hz2

theorem sortDescBy_pairwise {α κ : Type} [LinearOrder κ] (key : α → κ) :
    ∀ l : List α, (sortDescBy key l).Pairwise (fun x y => key y ≤ key x)
  | [] => by simp [sortDescBy]
  | a :: l => pairwise_insertDescBy key a (sortDescBy key l) (sortDescBy_pairwise key l)

theorem mem_sortDescBy {α κ : Type} [LinearOrder κ] (key : α → κ) (x : α) :
    ∀ l : List α, (x ∈ sortDescBy key l ↔ x ∈ l)
  | [] => Iff.rfl
  | a :: l => by
      unfold sortDescBy
      rw [mem_insertDescBy, mem_sortDescBy key x l, List.mem_cons]

theorem jsRegexMatchCount_ok (p t : String)
    (hp : p.data.all (fun c => !isRegexMeta c) = true) :
    jsRegexMatchCount p t = .ok (countOcc p.data t.data) := by
  simp [jsRegexMatchCount, hp]

theorem countOccF_pos_iff (pat : List Char) (hp : pat ≠ []) :
    ∀ fuel s, s.length ≤ fuel → (0 < countOccF pat fuel s ↔ occursIn pat s = true) := by
  intro fuel
  induction fuel with
  | zero =>
      intro s hs
      have hs0 : s = [] := List.length_eq_zero.mp (Nat.le_zero.mp hs)
      subst hs0
      simp [countOccF, occursIn, List.isEmpty_iff, hp]
  | succ f ih =>
      intro s hs
      cases s with
      | nil => simp [countOccF, occursIn, List.isEmpty_iff, hp]
      | cons c rest =>
          rw [countOccF, occursIn]
          have hne : pat.isEmpty = false := by simp [List.isEmpty_iff, hp]
          cases hsw : listStartsWith (c :: rest) pat with
          | true => simp [hsw, hne]
          | false =>
              simp [hsw, hne]
              exact ih rest (by simp at hs; omega)

theorem countOcc_pos_iff (pat s : List Char) (hp : pat ≠ []) :
    0 < countOcc pat s ↔ occursIn pat s = true :=
  countOccF_pos_iff pat hp s.length s le_rfl

theorem mem_dedupKeepAux (x : String) :
    ∀ (l : List String) (seen : List String), x ∈ dedupKeepAux seen l → x ∈ l
  | [], _, h => by simp [dedupKeepAux] at h
  | y :: l, seen, h => by
      rw [dedupKeepAux] at h
      split at h
      · exact List.mem_cons_of_mem _ (mem_dedupKeepAux x l seen h)
      · rcases List.mem_cons.mp h with h1 | h1
        · exact h1 ▸ List.mem_cons_self _ _
        · exact List.mem_cons_of_mem _ (mem_dedupKeepAux x l _ h1)

theorem mem_dedupKeep (x : String) (l : List String) (h : x ∈ dedupKeep l) : x ∈ l :=
  mem_dedupKeepAux x l [] h

theorem splitRunsF_ne_nil (isDelim : Char → Bool) :
    ∀ (fuel : Nat) (l : List Char) (t : List Char),
      t ∈ splitRunsF isDelim fuel l → t ≠ []
  | 0, _, t, h => by simp [splitRunsF] at h
  | _ + 1, [], t, h => by simp [splitRunsF] at h
  | fuel + 1, c :: rest, t, h => by
      rw [splitRunsF] at h
      split at h
      · exact splitRunsF_ne_nil isDelim fuel rest t h
      · rcases List.mem_cons.mp h with h1 | h1
        · subst h1
          simp
        · exact splitRunsF_ne_nil isDelim fuel _ t h1

theorem chunkRunF_ne_nil (lo hi : Nat) :
    ∀ (fuel : Nat) (l : List Char) (t : List Char),
      t ∈ chunkRunF lo hi fuel l → t ≠ []
  | 0, _, t, h => by simp [chunkRunF] at h
  | fuel + 1, l, t, h => by
      rw [chunkRunF] at h
      split at h
      · next hcond =>
          rcases List.mem_cons.mp h with h1 | h1
          · subst h1
            have hl : l ≠ [] := by
              intro he
              subst he
              simp at hcond
              omega
            intro he
            rcases l with _ | ⟨a, l2⟩
            · exact hl rfl
            · rcases Nat.exists_eq_add_of_le hcond.2.2 with ⟨k, hk⟩
              simp [hk, List.take_cons] at he
          · exact chunkRunF_ne_nil lo hi fuel _ t h1
      · simp at h

theorem boundedRunsF_ne_nil (isC : Char → Bool) (lo hi : Nat) :
    ∀ (fuel : Nat) (l : List Char) (t : List Char),
      t ∈ boundedRunsF isC lo hi fuel l → t ≠ []
  | 0, _, t, h => by simp [boundedRunsF] at h
  | _ + 1, [], t, h => by simp [boundedRunsF] at h
  | fuel + 1, c :: rest, t, h => by
      rw [boundedRunsF] at h
      split at h
      · rcases List.mem_append.mp h with h1 | h1
        · exact chunkRunF_ne_nil lo hi _ _ t h1
        · exact boundedRunsF_ne_nil isC lo hi fuel _ t h1
      · exact boundedRunsF_ne_nil isC lo hi fuel rest t h

theorem fieldExpansions_vals_ne_nil :
    ∀ fe ∈ fieldExpansions, ∀ v ∈ fe.2, v.data ≠ [] := by decide

theorem finalKeywords_ne_nil (query : String) :
    ∀ kw ∈ finalKeywordsOf query none, kw.data ≠ [] := by
  intro kw hkw
  unfold finalKeywordsOf expandKeywords at hkw
  have hkw2 := mem_dedupKeep _ _ hkw
  rcases List.mem_append.mp hkw2 with h1 | h1
  · unfold searchKeywordsOf at h1
    have h2 := mem_dedupKeep _ _ h1
    rcases List.mem_append.mp h2 with h3 | h3
    · unfold baseKeywordsOf splitTokens splitRuns at h3
      rcases List.mem_map.mp h3 with ⟨t, ht, ht2⟩
      have hne2 := splitRunsF_ne_nil isJsSpace _ _ t ht
      subst ht2
      simpa using hne2
    · unfold kanjiTokens23 boundedRuns at h3
      rcases List.mem_map.mp h3 with ⟨t, ht, ht2⟩
      have hne2 := boundedRunsF_ne_nil isKanji 2 3 _ _ t ht
      subst ht2
      simpa using hne2
  · rcases List.mem_flatMap.mp h1 with ⟨k0, hk0, hin⟩
    rcases List.mem_flatMap.mp hin with ⟨fe, hfe, hv⟩
    by_cases hc : (strIncludes k0 fe.1 || strIncludes fe.1 k0) = true
    · rw [if_pos hc] at hv
      exact fieldExpansions_vals_ne_nil fe hfe kw hv
    · rw [if_neg hc] at hv
      cases hv

theorem scoreKeywordsGo_ok (lc lt la : String) :
    ∀ (kws : List String) (s0 : Nat) (m0 : List String),
      (∀ kw ∈ kws, ((jsToLower kw).data.all (fun c => !isRegexMeta c)) = true) →
      ∃ sm, scoreKeywordsGo lc lt la kws s0 m0 = .ok sm
  | [], s0, m0, _ => ⟨(s0, m0), rfl⟩
  | kw :: rest, s0, m0, h => by
      rw [scoreKeywordsGo]
      rw [jsRegexMatchCount_ok _ _ (h kw (List.mem_cons_self _ _))]
      exact scoreKeywordsGo_ok lc lt la rest _ _ (fun k hk => h k (List.mem_cons_of_mem _ hk))

theorem scoreDocE_ok (kws : List String) (doc : KDoc)
    (h : ∀ kw ∈ kws, ((jsToLower kw).data.all (fun c => !isRegexMeta c)) = true) :
    ∃ sm, scoreDocE kws doc = .ok sm := by
  rcases scoreKeywordsGo_ok (jsToLower doc.content) (jsToLower doc.title)
      (jsToLower (doc.author.getD "")) kws 0 [] h with ⟨sm, hsm⟩
  simp only [scoreDocE, hsm]
  split <;> exact ⟨_, rfl⟩

theorem scoreAllE_ok (kws : List String)
    (h : ∀ kw ∈ kws, ((jsToLower kw).data.all (fun c => !isRegexMeta c)) = true) :
    ∀ base : List KDoc, ∃ r, scoreAllE kws base = .ok r
  | [] => ⟨[], rfl⟩
  | d :: rest => by
      rw [scoreAllE]
      rcases scoreDocE_ok kws d h with ⟨sm, hsm⟩
      rw [hsm]
      rcases scoreAllE_ok kws h rest with ⟨tl, htl⟩
      rw [htl]
      exact ⟨_, rfl⟩

theorem scoreAllE_mem (kws : List String) :
    ∀ (base r : List KDoc), scoreAllE kws base = .ok r →
      ∀ d ∈ r, ∃ d0 s m, d0 ∈ base ∧ scoreDocE kws d0 = .ok (s, m) ∧ 0 < s
        ∧ d = setScore d0 s m
  | [], r, h, d, hd => by
      rw [scoreAllE] at h
      cases h
      cases hd
  | d1 :: rest, r, h, d, hd => by
      rw [scoreAllE] at h
      cases hsm : scoreDocE kws d1 with
      | error e => rw [hsm] at h; cases h
      | ok sm =>
          rw [hsm] at h
          cases htl : scoreAllE kws rest with
          | error e => rw [htl] at h; cases h
          | ok tl =>
              rw [htl] at h
              cases h
              rcases List.mem_append.mp hd with h1 | h1
              · by_cases hpos : 0 < sm.1
                · rw [if_pos hpos] at h1
                  rcases List.mem_cons.mp h1 with h2 | h2
                  · exact ⟨d1, sm.1, sm.2, List.mem_cons_self _ _, by rw [hsm], hpos, h2⟩
                  · cases h2
                · rw [if_neg hpos] at h1
                  cases h1
              · rcases scoreAllE_mem kws rest tl htl d h1 with ⟨d0, s, m, hm, hs, hp, he⟩
                exact ⟨d0, s, m, List.mem_cons_of_mem _ hm, hs, hp, he⟩

theorem scoreAllE_complete (kws : List String) :
    ∀ (base r : List KDoc), scoreAllE kws base = .ok r →
      ∀ d0 ∈ base, ∀ s m, scoreDocE kws d0 = .ok (s, m) → 0 < s → setScore d0 s m ∈ r
  | [], r, h, d0, hd0, s, m, hsc, hs => by cases hd0
  | d1 :: rest, r, h, d0, hd0, s, m, hsc, hs => by
      rw [scoreAllE] at h
      cases hsm : scoreDocE kws d1 with
      | error e => rw [hsm] at h; cases h
      | ok sm =>
          rw [hsm] at h
          cases htl : scoreAllE kws rest with
          | error e => rw [htl] at h; cases h
          | ok tl =>
              rw [htl] at h
              cases h
              rcases List.mem_cons.mp hd0 with h1 | h1
              · subst h1
                rw [hsc] at hsm
                cases hsm
                rw [if_pos hs]
                exact List.mem_append.mpr (Or.inl (List.mem_cons_self _ _))
              · exact List.mem_append.mpr
                  (Or.inr (scoreAllE_complete kws rest tl htl d0 h1 s m hsc hs))

theorem noMatch_scores (kw : String) (d : KDoc) (hne : kw.data ≠ [])
    (h : kwMatchesDoc kw d = false) :
    authorScore (jsToLower (d.author.getD "")) kw (jsToLower kw) = (0, [])
      ∧ titleScore (jsToLower d.title) kw (jsToLower kw) = (0, [])
      ∧ countOcc (jsToLower kw).data (jsToLower d.content).data = 0 := by
  unfold kwMatchesDoc at h
  simp only [Bool.or_eq_false_iff, Bool.and_eq_false_iff, decide_eq_false_iff_not,
    Bool.not_eq_true, not_lt, Nat.le_zero] at h
  refine ⟨?_, ?_, h.2⟩
  · unfold authorScore
    rcases h.1.1 with h1 | h1
    · rw [if_neg h1]
    · rcases h1 with ⟨⟨heq, hi1⟩, hi2⟩
      by_cases hla : (jsToLower (d.author.getD "")).length ≠ 0
      · rw [if_pos hla, if_neg heq, if_neg (by simp [hi1, hi2])]
      · rw [if_neg hla]
  · unfold titleScore
    rw [if_neg (by simp [h.1.2])]

theorem scoreKeywordsGo_zero (lc lt la : String) :
    ∀ (kws : List String) (s0 : Nat) (m0 : List String),
      (∀ kw ∈ kws,
        authorScore la kw (jsToLower kw) = (0, [])
          ∧ titleScore lt kw (jsToLower kw) = (0, [])
          ∧ countOcc (jsToLower kw).data lc.data = 0
          ∧ ((jsToLower kw).data.all (fun c => !isRegexMeta c)) = true) →
      scoreKeywordsGo lc lt la kws s0 m0 = .ok (s0, m0)
  | [], s0, m0, _ => rfl
  | kw :: rest, s0, m0, h => by
      rw [scoreKeywordsGo]
      have hk := h kw (List.mem_cons_self _ _)
      rw [jsRegexMatchCount_ok _ _ hk.2.2.2, hk.1, hk.2.1, hk.2.2.1]
      simp only [contentScoreOf, lt_irrefl, if_neg (lt_irrefl 0)]
      have := scoreKeywordsGo_zero lc lt la rest s0 m0
        (fun k hkk => h k (List.mem_cons_of_mem _ hkk))
      simpa using this

theorem scoreDocE_zero (kws : List String) (d : KDoc)
    (hne : ∀ kw ∈ kws, kw.data ≠ [])
    (hplain : ∀ kw ∈ kws, ((jsToLower kw).data.all (fun c => !isRegexMeta c)) = true)
    (h : ∀ kw ∈ kws, kwMatchesDoc kw d = false) :
    scoreDocE kws d = .ok (0, []) := by
  have hzero := scoreKeywordsGo_zero (jsToLower d.content) (jsToLower d.title)
    (jsToLower (d.author.getD "")) kws 0 []
    (fun kw hkw => by
      rcases noMatch_scores kw d (hne kw hkw) (h kw hkw) with ⟨h1, h2, h3⟩
      exact ⟨h1, h2, h3, hplain kw hkw⟩)
  have hcount : (kws.filter (fun k =>
      strIncludes (jsToLower d.content) (jsToLower k)
        || strIncludes (jsToLower d.title) (jsToLower k))) = [] := by
    rw [List.filter_eq_nil_iff]
    intro k hk
    rcases noMatch_scores k d (hne k hk) (h k hk) with ⟨h1, h2, h3⟩
    have hkne : (jsToLower k).data ≠ [] := by
      simpa [jsToLower] using hne k hk
    have hnc : strIncludes (jsToLower d.content) (jsToLower k) = false := by
      cases hoc : strIncludes (jsToLower d.content) (jsToLower k)
      · rfl
      · exfalso
        have := (countOcc_pos_iff (jsToLower k).data (jsToLower d.content).data hkne).mpr hoc
        omega
    have hnt : strIncludes (jsToLower d.title) (jsToLower k) = false := by
      unfold kwMatchesDoc at h
      have hh := h k hk
      simp only [Bool.or_eq_false_iff] at hh
      exact hh.1.2
    simp [hnc, hnt]
  simp only [scoreDocE, hzero, hcount]
  simp

theorem scoreAllE_zero (kws : List String) :
    ∀ base : List KDoc, (∀ d ∈ base, scoreDocE kws d = .ok (0, [])) →
      scoreAllE kws base = .ok []
  | [], _ => rfl
  | d :: rest, h => by
      rw [scoreAllE, h d (List.mem_cons_self _ _),
        scoreAllE_zero kws rest (fun x hx => h x (List.mem_cons_of_mem _ hx))]
      simp

/-- C5 (amended): provided every expanded keyword is free of regex
metacharacters (otherwise the RegExp construction can throw — see the
counterexample), keyword-mode search returns normally and its result is
the positive-score documents of the corpus, annotated with their score,
sorted descending by score (stable), truncated to at most five entries;
a document with positive score is only missing when the truncation is
full, and a query none of whose expanded keywords matches any document
yields the empty list. -/
theorem keywordSearch_shape (base : List KDoc) (query : String)
    (hplain : ∀ kw ∈ finalKeywordsOf query none,
      ((jsToLower kw).data.all (fun c => !isRegexMeta c)) = true) :
    ∃ r, keywordSearchE base query none = .ok r
      ∧ r.length ≤ 5
      ∧ r.Pairwise (fun a b => b.searchScore.getD 0 ≤ a.searchScore.getD 0)
      ∧ (∀ d ∈ r, ∃ d0 s m, d0 ∈ base
          ∧ scoreDocE (finalKeywordsOf query none) d0 = .ok (s, m)
          ∧ 0 < s ∧ d = setScore d0 s m)
      ∧ (∀ d0 ∈ base, ∀ s m, scoreDocE (finalKeywordsOf query none) d0 = .ok (s, m) →
          0 < s → (setScore d0 s m ∈ r ∨ r.length = 5))
      ∧ ((∀ kw ∈ finalKeywordsOf query none, ∀ d ∈ base, kwMatchesDoc kw d = false) →
          r = []) := by
  rcases scoreAllE_ok (finalKeywordsOf query none) hplain base with ⟨res, hres⟩
  refine ⟨(sortDescBy (fun d => d.searchScore.getD 0) res).take 5, ?_, ?_, ?_, ?_, ?_, ?_⟩
  · unfold keywordSearchE
    rw [hres]
  · rw [List.length_take]
    exact Nat.min_le_left _ _
  · exact List.Pairwise.sublist (List.take_sublist _ _)
      (sortDescBy_pairwise (fun d => d.searchScore.getD 0) res)
  · intro d hd
    have hd2 : d ∈ sortDescBy (fun d => d.searchScore.getD 0) res :=
      List.mem_of_mem_take hd
    exact scoreAllE_mem _ base res hres d
      ((mem_sortDescBy (fun d => d.searchScore.getD 0) d res).mp hd2)
  · intro d0 hd0 sc m hsc hpos
    have hin : setScore d0 sc m ∈ sortDescBy (fun d => d.searchScore.getD 0) res :=
      (mem_sortDescBy _ _ _).mpr (scoreAllE_complete _ base res hres d0 hd0 sc m hsc hpos)
    by_cases htk : setScore d0 sc m ∈ (sortDescBy (fun d => d.searchScore.getD 0) res).take 5
    · exact Or.inl htk
    · right
      rw [List.length_take]
      have hsplit : setScore d0 sc m ∈
          (sortDescBy (fun d => d.searchScore.getD 0) res).take 5
            ++ (sortDescBy (fun d => d.searchScore.getD 0) res).drop 5 := by
        rw [List.take_append_drop]
        exact hin
      rcases List.mem_append.mp hsplit with hmem | hmem
      · exact absurd hmem htk
      · have hdrop : (sortDescBy (fun d => d.searchScore.getD 0) res).drop 5 ≠ [] := by
          intro he
          rw [he] at hmem
          cases hmem
        have hlen : 5 < (sortDescBy (fun d => d.searchScore.getD 0) res).length := by
          by_contra hc
          push_neg at hc
          exact hdrop (List.drop_eq_nil_of_le hc)
        omega
  · intro hzero
    have hne := finalKeywords_ne_nil query
    have hres0 : scoreAllE (finalKeywordsOf query none) base = .ok [] :=
      scoreAllE_zero _ base (fun d hd =>
        scoreDocE_zero _ d hne hplain (fun kw hkw => hzero kw hkw d hd))
    rw [hres0] at hres
    cases hres
    simp [sortDescBy]

/-- C5 counterexample: keyword-mode search over a non-empty corpus with
the query "(" throws instead of returning a list: the token reaches
`new RegExp("(", "g")`, whose construction fails with a SyntaxError
(unterminated group), uncaught inside keywordSearch. -/
theorem keywordSearch_throws_counterexample :
    keywordSearchE [KDoc.mk "d1" "c" "t" "thesis" none none none none] "(" none
      = .error (.syntaxError "(") := by decide

/-- Witness for C5 (amended) at the query "hello" over a two-document
corpus: the search returns normally. -/
theorem keywordSearch_shape_witness :
    (∀ kw ∈ finalKeywordsOf "hello" none,
      ((jsToLower kw).data.all (fun c => !isRegexMeta c)) = true)
    ∧ ∃ r, keywordSearchE
        [KDoc.mk "d1" "hello hello world" "t1" "thesis" none none none none,
         KDoc.mk "d2" "zz" "t2" "thesis" none none none none] "hello" none = .ok r
      ∧ r.length ≤ 5 :=
  ⟨by decide, by
    rcases keywordSearch_shape
      [KDoc.mk "d1" "hello hello world" "t1" "thesis" none none none none,
       KDoc.mk "d2" "zz" "t2" "thesis" none none none none] "hello" (by decide) with
      ⟨r, h1, h2, _⟩
    exact ⟨r, h1, h2⟩⟩

theorem scoreDocE_single_score (k : String) (d : KDoc) (s : Nat) (m : List String)
    (h : scoreDocE [k] d = .ok (s, m)) :
    ∃ n, jsRegexMatchCount (jsToLower k) (jsToLower d.content) = .ok n
      ∧ s = (authorScore (jsToLower (d.author.getD "")) k (jsToLower k)).1
          + (titleScore (jsToLower d.title) k (jsToLower k)).1
          + (contentScoreOf n k (jsToLower k)).1 := by
  simp only [scoreDocE, scoreKeywordsGo] at h
  cases hok : jsRegexMatchCount (jsToLower k) (jsToLower d.content) with
  | error e => rw [hok] at h; cases h
  | ok n =>
      have hflt : ¬ 3 ≤ (([k].filter (fun kk =>
          strIncludes (jsToLower d.content) (jsToLower kk)
            || strIncludes (jsToLower d.title) (jsToLower kk))).length) := by
        have hle := List.length_filter_le (fun kk =>
          strIncludes (jsToLower d.content) (jsToLower kk)
            || strIncludes (jsToLower d.title) (jsToLower kk)) [k]
        simp only [List.length_cons, List.length_nil] at hle
        omega
      simp only [hok] at h
      rw [if_neg hflt] at h
      rw [Except.ok.injEq, Prod.mk.injEq] at h
      exact ⟨n, rfl, by omega⟩

theorem authorExact_score_25 (k : String) (d : KDoc)
    (ha : authorExactMatch k d = true) :
    (authorScore (jsToLower (d.author.getD "")) k (jsToLower k)).1 = 25 := by
  unfold authorExactMatch at ha
  simp only [Bool.and_eq_true, decide_eq_true_eq] at ha
  unfold authorScore
  rw [if_pos ha.1, if_pos ha.2]

theorem contentScoreOf_le_10 (n : Nat) (kw kwL : String) :
    (contentScoreOf n kw kwL).1 ≤ 10 := by
  unfold contentScoreOf contentTier
  repeat' split
  all_goals simp

theorem contentOnly_score_le (k : String) (d : KDoc) (s : Nat) (m : List String)
    (hc : contentOnlyFor k d = true) (h : scoreDocE [k] d = .ok (s, m)) : s ≤ 10 := by
  rcases scoreDocE_single_score k d s m h with ⟨n, hok, hs⟩
  unfold contentOnlyFor at hc
  simp only [Bool.and_eq_true, decide_eq_true_eq] at hc
  rw [hs, hc.1, hc.2]
  have := contentScoreOf_le_10 n k (jsToLower k)
  omega

theorem authorExact_score_ge (k : String) (d : KDoc) (s : Nat) (m : List String)
    (ha : authorExactMatch k d = true) (h : scoreDocE [k] d = .ok (s, m)) : 25 ≤ s := by
  rcases scoreDocE_single_score k d s m h with ⟨n, hok, hs⟩
  rw [hs, authorExact_score_25 k d ha]
  omega

/-- C1 (amended): for a query whose final expanded keyword list is the
single keyword k, a document with non-empty author exactly equal to k
scores at least 25 while a document with neither author nor title
contribution scores at most 10; hence in the returned ranking every
author-exact document comes strictly before every content-only
document.  (The original unrestricted claim fails for multi-keyword
queries, where content matches accumulate — see the counterexample.) -/
theorem keywordSearch_author_rank_single (base : List KDoc) (query k : String)
    (hk : finalKeywordsOf query none = [k]) (r : List KDoc)
    (hr : keywordSearchE base query none = .ok r)
    (i j : Nat) (hi : i < r.length) (hj : j < r.length)
    (hae : authorExactMatch k (r.get ⟨j, hj⟩) = true)
    (hco : contentOnlyFor k (r.get ⟨i, hi⟩) = true) : j < i := by
  unfold keywordSearchE at hr
  cases hres : scoreAllE (finalKeywordsOf query none) base with
  | error e => rw [hres] at hr; cases hr
  | ok res =>
      rw [hres, Except.ok.injEq] at hr
      have hmem : ∀ (p : Nat) (hp : p < r.length), ∃ d0 sc mm, d0 ∈ base
          ∧ scoreDocE [k] d0 = .ok (sc, mm) ∧ 0 < sc
          ∧ r.get ⟨p, hp⟩ = setScore d0 sc mm := by
        intro p hp
        have hin : r.get ⟨p, hp⟩ ∈ r := List.get_mem r p hp
        have hin1 : r.get ⟨p, hp⟩
            ∈ (sortDescBy (fun d => d.searchScore.getD 0) res).take 5 := by
          rw [hr]
          exact hin
        have hin2 := List.mem_of_mem_take hin1
        have hin3 := (mem_sortDescBy (fun d => d.searchScore.getD 0) _ res).mp hin2
        rcases scoreAllE_mem _ base res hres _ hin3 with ⟨d0, sc, mm, h1, h2, h3, h4⟩
        rw [hk] at h2
        exact ⟨d0, sc, mm, h1, h2, h3, h4⟩
      rcases hmem j hj with ⟨dj, sj, mj, hdj, hsj, hpj, hej⟩
      rcases hmem i hi with ⟨di, si, mi, hdi, hsi, hpi, hei⟩
      have haej : authorExactMatch k dj = true := by
        rw [hej] at hae
        exact hae
      have hcoi : contentOnlyFor k di = true := by
        rw [hei] at hco
        exact hco
      have hsjge : 25 ≤ sj := authorExact_score_ge k dj sj mj haej hsj
      have hsile : si ≤ 10 := contentOnly_score_le k di si mi hcoi hsi
      have hkeyj : (r.get ⟨j, hj⟩).searchScore.getD 0 = sj := by
        rw [hej]
        rfl
      have hkeyi : (r.get ⟨i, hi⟩).searchScore.getD 0 = si := by
        rw [hei]
        rfl
      have hpw : r.Pairwise (fun a b => b.searchScore.getD 0 ≤ a.searchScore.getD 0) := by
        rw [← hr]
        exact List.Pairwise.sublist (List.take_sublist _ _)
          (sortDescBy_pairwise (fun d => d.searchScore.getD 0) res)
      by_contra hij
      push_neg at hij
      rcases Nat.lt_or_ge i j with hlt | hge
      · have := List.pairwise_iff_get.mp hpw ⟨i, hi⟩ ⟨j, hj⟩ hlt
        rw [hkeyi, hkeyj] at this
        omega
      · have heq : i = j := by omega
        subst heq
        have hsame : setScore di si mi = setScore dj sj mj := hei.symm.trans hej
        have h2 : some si = some sj := congrArg (fun d => d.searchScore) hsame
        have hss : si = sj := Option.some.inj h2
        omega

/-- C1 counterexample: in the four-token query "alice qqq www rrr" the
document A has non-empty author exactly equal to the query token
"alice", document B matches only on content (no author, and no final
keyword contributes author or title points to it), yet B (score 35) is
ranked strictly above A (score 25). -/
theorem keywordSearch_author_rank_counterexample :
    "alice" ∈ baseKeywordsOf "alice qqq www rrr"
    ∧ ((keywordSearchE
        [KDoc.mk "A" "zz" "t1" "thesis" (some "alice") none none none,
         KDoc.mk "B" "qqq qqq qqq qqq qqq www www www www www rrr rrr rrr rrr rrr" "t2" "thesis" none none none none]
        "alice qqq www rrr" none).map
        (fun r => (r.map KDoc.id, r.map KDoc.searchScore)))
      = .ok (["B", "A"], [some 35, some 25])
    ∧ (finalKeywordsOf "alice qqq www rrr" none).all
        (fun kw => contentOnlyFor kw
          (KDoc.mk "B" "qqq qqq qqq qqq qqq www www www www www rrr rrr rrr rrr rrr" "t2" "thesis" none none none none)) = true := by
  refine ⟨by decide, by decide, by decide⟩

/-- Witness for C1 (amended): single-token query "alice", author-exact
document A (score 25) precedes content-only document B (score 6). -/
theorem keywordSearch_author_rank_single_witness :
    finalKeywordsOf "alice" none = ["alice"] ∧ (0 : Nat) < 1 := by
  refine ⟨by decide, ?_⟩
  exact keywordSearch_author_rank_single
    [KDoc.mk "A" "zz" "t1" "thesis" (some "alice") none none none,
     KDoc.mk "B" "alice alice" "t2" "thesis" none none none none]
    "alice" "alice" (by decide)
    [setScore (KDoc.mk "A" "zz" "t1" "thesis" (some "alice") none none none) 25
       ["著者完全一致:alice"],
     setScore (KDoc.mk "B" "alice alice" "t2" "thesis" none none none none) 6
       ["本文技術用語:alice(2回)"]]
    (by decide) 1 0 (by decide) (by decide) (by decide) (by decide)

theorem jsRegexMatchCount_error_indep (p t t2 : String) (e : JsError)
    (h : jsRegexMatchCount p t = .error e) : jsRegexMatchCount p t2 = .error e := by
  unfold jsRegexMatchCount at h ⊢
  by_cases hA : (p.data.all (fun c => !isRegexMeta c)) = true
  · rw [if_pos hA] at h
    cases h
  · rw [if_neg hA] at h ⊢
    exact h

theorem scoreKeywordsGo_error (lc lt la lc2 lt2 la2 : String) :
    ∀ (kws : List String) (s0 : Nat) (m0 : List String) (s1 : Nat) (m1 : List String)
      (e : JsError),
      scoreKeywordsGo lc lt la kws s0 m0 = .error e →
      scoreKeywordsGo lc2 lt2 la2 kws s1 m1 = .error e
  | [], s0, m0, s1, m1, e, h => by cases h
  | kw :: rest, s0, m0, s1, m1, e, h => by
      rw [scoreKeywordsGo] at h ⊢
      cases hc1 : jsRegexMatchCount (jsToLower kw) lc with
      | error e1 =>
          simp only [hc1] at h
          cases h
          rw [jsRegexMatchCount_error_indep _ lc lc2 _ hc1]
      | ok n =>
          simp only [hc1] at h
          cases hc2 : jsRegexMatchCount (jsToLower kw) lc2 with
          | error e2 =>
              have h2 := jsRegexMatchCount_error_indep _ lc2 lc _ hc2
              rw [h2] at hc1
              cases hc1
          | ok n2 =>
              simp only [hc2]
              exact scoreKeywordsGo_error lc lt la lc2 lt2 la2 rest _ _ _ _ e h

theorem scoreDocE_error_indep (kws : List String) (d d2 : KDoc) (e : JsError)
    (h : scoreDocE kws d = .error e) : scoreDocE kws d2 = .error e := by
  simp only [scoreDocE] at h ⊢
  cases hg : scoreKeywordsGo (jsToLower d.content) (jsToLower d.title)
      (jsToLower (d.author.getD "")) kws 0 [] with
  | error e1 =>
      simp only [hg] at h
      cases h
      have h3 := scoreKeywordsGo_error (jsToLower d.content) (jsToLower d.title)
        (jsToLower (d.author.getD "")) (jsToLower d2.content) (jsToLower d2.title)
        (jsToLower (d2.author.getD "")) kws 0 [] 0 [] _ hg
      simp only [h3]
  | ok sm =>
      simp only [hg] at h
      split at h <;> cases h

theorem scoreAllE_error_exists (kws : List String) :
    ∀ (b : List KDoc) (e : JsError), scoreAllE kws b = .error e →
      ∃ d, scoreDocE kws d = .error e
  | [], e, h => by cases h
  | d :: rest, e, h => by
      rw [scoreAllE] at h
      cases hd : scoreDocE kws d with
      | error e1 =>
          rw [hd] at h
          cases h
          exact ⟨d, hd⟩
      | ok sm =>
          rw [hd] at h
          cases ht : scoreAllE kws rest with
          | error e1 =>
              rw [ht] at h
              cases h
              exact scoreAllE_error_exists kws rest e ht
          | ok tl => rw [ht] at h; cases h

theorem scoreAllE_error_indep (kws : List String) (b1 b2 : List KDoc) (e : JsError)
    (h2 : b2 ≠ []) (h : scoreAllE kws b1 = .error e) : scoreAllE kws b2 = .error e := by
  rcases scoreAllE_error_exists kws b1 e h with ⟨d, hd⟩
  rcases b2 with _ | ⟨d2, r2⟩
  · exact absurd rfl h2
  · rw [scoreAllE, scoreDocE_error_indep kws d d2 e hd]

theorem keywordSearchE_error_indep (q : String) (c : Option (List String))
    (b1 b2 : List KDoc) (e : JsError) (h2 : b2 ≠ [])
    (h : keywordSearchE b1 q c = .error e) : keywordSearchE b2 q c = .error e := by
  unfold keywordSearchE at h ⊢
  cases hs : scoreAllE (finalKeywordsOf q c) b1 with
  | error e1 =>
      rw [hs] at h
      cases h
      rw [scoreAllE_error_indep _ b1 b2 _ h2 hs]
  | ok r =>
      rw [hs] at h
      cases h

theorem prefilter_ne_nil_base (base : List KDoc) (query : String)
    (h : prefilterCandidates base query ≠ []) : base ≠ [] := by
  intro hb
  subst hb
  apply h
  simp [prefilterCandidates]

theorem semanticScoreGo_spec (sqrt : Rat → Rat) (oracle : String → Except Unit (List Rat))
    (rand : Nat → Rat) (kvE : Bool) (vst : VecState) (qE : List Rat) :
    ∀ docs : List KDoc,
      semanticScoreGo sqrt oracle rand kvE vst qE docs
        = (docs.map (fun d => (d, specCandidateScore sqrt oracle rand kvE vst qE d)),
           specFreshCount kvE vst docs)
  | [] => rfl
  | doc :: rest => by
      rw [semanticScoreGo, semanticScoreGo_spec sqrt oracle rand kvE vst qE rest]
      by_cases hc : ((getIndexedDocIds kvE vst).contains doc.id) = true
      · rw [if_pos hc]
        cases hv : getDocVectors kvE vst doc.id with
        | some vecs =>
            simp only []
            by_cases hl : vecs.length ≠ 0
            · rw [if_pos hl]
              have hcm : doc.id ∈ getIndexedDocIds kvE vst := by simpa using hc
              have hsp : specUsesStored kvE vst doc = true := by
                simp [specUsesStored, hc, hv, hl, hcm]
              have hcs : specCandidateScore sqrt oracle rand kvE vst qE doc
                  = bestChunkSim sqrt qE vecs := by
                simp [specCandidateScore, hsp, hv]
              have hfc : specFreshCount kvE vst (doc :: rest)
                  = specFreshCount kvE vst rest := by
                simp only [specFreshCount]
                rw [List.filter_cons_of_neg]
                simp [hsp]
              simp only [List.map_cons, hcs, hfc]
            · rw [if_neg hl]
              have hsp : specUsesStored kvE vst doc = false := by
                simp only [ne_eq, not_not] at hl
                simp [specUsesStored, hc, hv, hl]
              have hcs : specCandidateScore sqrt oracle rand kvE vst qE doc
                  = cosineSimilarity sqrt qE (generateEmbedding oracle rand
                      (String.mk (doc.content.data.take 4000))) := by
                simp [specCandidateScore, hsp]
              have hfc : specFreshCount kvE vst (doc :: rest)
                  = specFreshCount kvE vst rest + 1 := by
                simp only [specFreshCount]
                rw [List.filter_cons_of_pos]
                · simp
                · simp [hsp]
              simp only [List.map_cons, hcs, hfc]
        | none =>
            simp only []
            have hsp : specUsesStored kvE vst doc = false := by
              simp [specUsesStored, hc, hv]
            have hcs : specCandidateScore sqrt oracle rand kvE vst qE doc
                = cosineSimilarity sqrt qE (generateEmbedding oracle rand
                    (String.mk (doc.content.data.take 4000))) := by
              simp [specCandidateScore, hsp]
            have hfc : specFreshCount kvE vst (doc :: rest)
                = specFreshCount kvE vst rest + 1 := by
              simp only [specFreshCount]
              rw [List.filter_cons_of_pos]
              · simp
              · simp [hsp]
            simp only [List.map_cons, hcs, hfc]
      · rw [if_neg hc]
        have hcm : doc.id ∉ getIndexedDocIds kvE vst := by simpa using hc
        have hsp : specUsesStored kvE vst doc = false := by
          simp [specUsesStored, hcm]
        have hcs : specCandidateScore sqrt oracle rand kvE vst qE doc
            = cosineSimilarity sqrt qE (generateEmbedding oracle rand
                (String.mk (doc.content.data.take 4000))) := by
          simp [specCandidateScore, hsp]
        have hfc : specFreshCount kvE vst (doc :: rest)
            = specFreshCount kvE vst rest + 1 := by
          simp only [specFreshCount]
          rw [List.filter_cons_of_pos]
          · simp
          · simp [hsp]
        simp only [List.map_cons, hcs, hfc]

/-- C3: dispatch of the semantic-search engine on the prefilter result.
More than ten candidates: keyword scoring over exactly that candidate
set with zero embedding-oracle invocations (an exception thrown inside
that keyword scoring is caught and retried over the full corpus, where
it produces the identical outcome).  One to ten candidates: the result
is the per-candidate maximum-cosine scoring, sorted descending, top
five, entries at or below the 0.1 floor dropped, at the cost of one
query embedding plus one document embedding per candidate without
usable stored chunks.  Zero candidates: fallback to keyword search over
the full corpus (with the outer plus dynamically extracted keywords),
again with zero embedding calls. -/
theorem semanticSearch_branches (sqrt : Rat → Rat)
    (oracle : String → Except Unit (List Rat)) (rand : Nat → Rat)
    (kvE : Bool) (vst : VecState) (base : List KDoc) (query : String) :
    (10 < (prefilterCandidates base query).length →
        semanticSearchE sqrt oracle rand kvE vst base query
          = (keywordSearchE (prefilterCandidates base query) query none, 0))
    ∧ ((0 < (prefilterCandidates base query).length
          ∧ (prefilterCandidates base query).length ≤ 10) →
        semanticSearchE sqrt oracle rand kvE vst base query
          = (.ok (specSemanticTop5 sqrt oracle rand kvE vst base query),
             1 + specFreshCount kvE vst (prefilterCandidates base query)))
    ∧ ((prefilterCandidates base query).length = 0 →
        ∀ r, keywordSearchE base query
            (some (splitTokens isOuterDelim (jsToLower query)
              ++ extractDynamicKeywords query base)) = .ok r →
          semanticSearchE sqrt oracle rand kvE vst base query = (.ok r, 0)) := by
  refine ⟨?_, ?_, ?_⟩
  · intro h
    unfold semanticSearchE semanticBody
    rw [if_pos h]
    cases hkw : keywordSearchE (prefilterCandidates base query) query none with
    | ok r => simp
    | error e =>
        simp only []
        have hbne : base ≠ [] := by
          apply prefilter_ne_nil_base base query
          intro he
          rw [he] at h
          simp at h
        rw [keywordSearchE_error_indep query none (prefilterCandidates base query)
          base e hbne hkw]
  · rintro ⟨h1, h2⟩
    unfold semanticSearchE semanticBody
    rw [if_neg (by omega), if_pos h1]
    simp only [semanticScoreGo_spec, specSemanticTop5]
  · intro h0 r hr
    unfold semanticSearchE semanticBody
    rw [if_neg (by omega), if_neg (by omega)]
    simp only [hr]

/-- Witness for C3 at the specification scenario: a corpus of fifteen
documents of which the prefilter keeps twelve, so the engine falls back
to keyword scoring over those twelve candidates with zero
embedding-oracle invocations. -/
theorem semanticSearch_branches_witness :
    (prefilterCandidates
      [KDoc.mk "d1" "mizu" "t1" "thesis" none none none none,
     KDoc.mk "d2" "mizu" "t2" "thesis" none none none none,
     KDoc.mk "d3" "mizu" "t3" "thesis" none none none none,
     KDoc.mk "d4" "mizu" "t4" "thesis" none none none none,
     KDoc.mk "d5" "mizu" "t5" "thesis" none none none none,
     KDoc.mk "d6" "mizu" "t6" "thesis" none none none none,
     KDoc.mk "d7" "mizu" "t7" "thesis" none none none none,
     KDoc.mk "d8" "mizu" "t8" "thesis" none none none none,
     KDoc.mk "d9" "mizu" "t9" "thesis" none none none none,
     KDoc.mk "d10" "mizu" "t10" "thesis" none none none none,
     KDoc.mk "d11" "mizu" "t11" "thesis" none none none none,
     KDoc.mk "d12" "mizu" "t12" "thesis" none none none none,
     KDoc.mk "d13" "xx" "t13" "thesis" none none none none,
     KDoc.mk "d14" "xx" "t14" "thesis" none none none none,
     KDoc.mk "d15" "xx" "t15" "thesis" none none none none] "mizu").length = 12
    ∧ semanticSearchE ratSqrt (fun _ => .error ()) (fun _ => 1) false (VecState.mk [] [])
        [KDoc.mk "d1" "mizu" "t1" "thesis" none none none none,
     KDoc.mk "d2" "mizu" "t2" "thesis" none none none none,
     KDoc.mk "d3" "mizu" "t3" "thesis" none none none none,
     KDoc.mk "d4" "mizu" "t4" "thesis" none none none none,
     KDoc.mk "d5" "mizu" "t5" "thesis" none none none none,
     KDoc.mk "d6" "mizu" "t6" "thesis" none none none none,
     KDoc.mk "d7" "mizu" "t7" "thesis" none none none none,
     KDoc.mk "d8" "mizu" "t8" "thesis" none none none none,
     KDoc.mk "d9" "mizu" "t9" "thesis" none none none none,
     KDoc.mk "d10" "mizu" "t10" "thesis" none none none none,
     KDoc.mk "d11" "mizu" "t11" "thesis" none none none none,
     KDoc.mk "d12" "mizu" "t12" "thesis" none none none none,
     KDoc.mk "d13" "xx" "t13" "thesis" none none none none,
     KDoc.mk "d14" "xx" "t14" "thesis" none none none none,
     KDoc.mk "d15" "xx" "t15" "thesis" none none none none] "mizu"
      = (keywordSearchE (prefilterCandidates
          [KDoc.mk "d1" "mizu" "t1" "thesis" none none none none,
     KDoc.mk "d2" "mizu" "t2" "thesis" none none none none,
     KDoc.mk "d3" "mizu" "t3" "thesis" none none none none,
     KDoc.mk "d4" "mizu" "t4" "thesis" none none none none,
     KDoc.mk "d5" "mizu" "t5" "thesis" none none none none,
     KDoc.mk "d6" "mizu" "t6" "thesis" none none none none,
     KDoc.mk "d7" "mizu" "t7" "thesis" none none none none,
     KDoc.mk "d8" "mizu" "t8" "thesis" none none none none,
     KDoc.mk "d9" "mizu" "t9" "thesis" none none none none,
     KDoc.mk "d10" "mizu" "t10" "thesis" none none none none,
     KDoc.mk "d11" "mizu" "t11" "thesis" none none none none,
     KDoc.mk "d12" "mizu" "t12" "thesis" none none none none,
     KDoc.mk "d13" "xx" "t13" "thesis" none none none none,
     KDoc.mk "d14" "xx" "t14" "thesis" none none none none,
     KDoc.mk "d15" "xx" "t15" "thesis" none none none none] "mizu") "mizu" none, 0) :=
  ⟨by decide,
   (semanticSearch_branches ratSqrt (fun _ => .error ()) (fun _ => 1) false
      (VecState.mk [] [])
      [KDoc.mk "d1" "mizu" "t1" "thesis" none none none none,
     KDoc.mk "d2" "mizu" "t2" "thesis" none none none none,
     KDoc.mk "d3" "mizu" "t3" "thesis" none none none none,
     KDoc.mk "d4" "mizu" "t4" "thesis" none none none none,
     KDoc.mk "d5" "mizu" "t5" "thesis" none none none none,
     KDoc.mk "d6" "mizu" "t6" "thesis" none none none none,
     KDoc.mk "d7" "mizu" "t7" "thesis" none none none none,
     KDoc.mk "d8" "mizu" "t8" "thesis" none none none none,
     KDoc.mk "d9" "mizu" "t9" "thesis" none none none none,
     KDoc.mk "d10" "mizu" "t10" "thesis" none none none none,
     KDoc.mk "d11" "mizu" "t11" "thesis" none none none none,
     KDoc.mk "d12" "mizu" "t12" "thesis" none none none none,
     KDoc.mk "d13" "xx" "t13" "thesis" none none none none,
     KDoc.mk "d14" "xx" "t14" "thesis" none none none none,
     KDoc.mk "d15" "xx" "t15" "thesis" none none none none] "mizu").1 (by decide)⟩

theorem zip_replicate_self (a : Rat) :
    ∀ n : Nat, (List.replicate n a).zip (List.replicate n a) = List.replicate n (a, a)
  | 0 => rfl
  | n + 1 => by simp [List.replicate_succ, zip_replicate_self a n]

theorem cos_replicate_one (s : Rat → Rat) (n : Nat) (hn : (n : Rat) ≠ 0) :
    cosineSimilarity s (List.replicate n 1) (List.replicate n 1)
      = (n : Rat) / (s (n : Rat) * s (n : Rat)) := by
  unfold cosineSimilarity
  rw [if_neg (by simp)]
  have hsum : ((List.replicate n ((1 : Rat), (1 : Rat))).map (fun p => p.1 * p.2)).sum
      = (n : Rat) := by
    simp [List.map_replicate, List.sum_replicate, nsmul_eq_mul]
  have hsq : ((List.replicate n (1 : Rat)).map (fun x => x * x)).sum = (n : Rat) := by
    simp [List.map_replicate, List.sum_replicate, nsmul_eq_mul]
  rw [zip_replicate_self, hsum, hsq]
  rw [if_neg (by simp [hn])]

theorem fallbackVec_ones : fallbackVec (fun _ => 1) = List.replicate 1536 1 := by
  unfold fallbackVec
  have h : ∀ n : Nat, (List.range n).map (fun _ => (1 : Rat)) = List.replicate n 1 := by
    intro n
    induction n with
    | zero => rfl
    | succ k ih =>
        rw [List.range_succ, List.map_append, ih]
        simp only [List.map_cons, List.map_nil]
        exact (List.replicate_succ' _ _).symm
  exact h 1536

theorem natSqrt_1536 : Nat.sqrt 1536 = 39 := by
  have h1 : 39 ≤ Nat.sqrt 1536 := Nat.le_sqrt.mpr (by norm_num)
  have h2 : Nat.sqrt 1536 < 40 := Nat.sqrt_lt.mpr (by norm_num)
  omega

theorem ratSqrt_1536 : ratSqrt ((1536 : Nat) : Rat) = 39 := by
  unfold ratSqrt
  have h1 : (((1536 : Nat) : Rat)).num = 1536 := by norm_num
  rw [h1]
  have h2 : Int.toNat 1536 = 1536 := rfl
  rw [h2, natSqrt_1536]
  norm_num

theorem cos_fallback_value :
    cosineSimilarity ratSqrt (fallbackVec (fun _ => 1)) (fallbackVec (fun _ => 1))
      = (1536 : Rat) / (39 * 39) := by
  rw [fallbackVec_ones, cos_replicate_one ratSqrt 1536 (by norm_num), ratSqrt_1536]
  norm_num

/-- C6 counterexample: a single non-indexed candidate whose embedding
call fails is scored with the cosine similarity between the query
embedding and the random fallback vector substituted by
generateEmbedding.  With the random source fixed to ones the score is
1536/1521 — neither similarity 0 (as the claim states for a failed
oracle call) nor below the 0.1 floor — and the semantic rerank makes no
per-chunk oracle call at all (the per-chunk similarities of indexed
documents come from stored embeddings). -/
theorem semantic_embed_failure_counterexample :
    (semanticScoreGo ratSqrt (fun _ => .error ()) (fun _ => 1) true (VecState.mk [] [])
        (fallbackVec (fun _ => 1))
        [KDoc.mk "C" "vvv zzz" "t" "thesis" none none none none]).1
      = [(KDoc.mk "C" "vvv zzz" "t" "thesis" none none none none,
          cosineSimilarity ratSqrt (fallbackVec (fun _ => 1)) (fallbackVec (fun _ => 1)))]
    ∧ cosineSimilarity ratSqrt (fallbackVec (fun _ => 1)) (fallbackVec (fun _ => 1)) ≠ 0
    ∧ (1 : Rat)/10
        < cosineSimilarity ratSqrt (fallbackVec (fun _ => 1)) (fallbackVec (fun _ => 1)) := by
  refine ⟨rfl, ?_, ?_⟩
  · rw [cos_fallback_value]
    norm_num
  · rw [cos_fallback_value]
    norm_num

/-- C6 (amended): an embedding-oracle failure during semantic scoring is
caught inside generateEmbedding, which substitutes the random fallback
vector, so the 1-to-10-candidate semantic branch never aborts; a
document without usable stored chunks whose document-level embedding
call fails is scored by the cosine similarity against the fallback
vector (generally nonzero) rather than similarity 0; and a document with
stored chunks is scored from those stored embeddings alone, so no
per-chunk oracle call (and hence no per-chunk failure) exists in the
rerank path. -/
theorem semantic_embed_failure_behaviour (sqrt : Rat → Rat)
    (oracle : String → Except Unit (List Rat)) (rand : Nat → Rat)
    (kvE : Bool) (vst : VecState) (base : List KDoc) (query : String)
    (h1 : 0 < (prefilterCandidates base query).length)
    (h2 : (prefilterCandidates base query).length ≤ 10) :
    (∃ l, (semanticSearchE sqrt oracle rand kvE vst base query).1 = .ok l)
    ∧ (∀ doc sim,
        (doc, sim) ∈ (semanticScoreGo sqrt oracle rand kvE vst
            (generateEmbedding oracle rand query) (prefilterCandidates base query)).1 →
        specUsesStored kvE vst doc = false →
        oracle (String.mk ((String.mk (doc.content.data.take 4000)).data.take 8000))
          = .error () →
        sim = cosineSimilarity sqrt (generateEmbedding oracle rand query)
          (fallbackVec rand))
    ∧ (∀ doc sim,
        (doc, sim) ∈ (semanticScoreGo sqrt oracle rand kvE vst
            (generateEmbedding oracle rand query) (prefilterCandidates base query)).1 →
        specUsesStored kvE vst doc = true →
        sim = bestChunkSim sqrt (generateEmbedding oracle rand query)
          ((getDocVectors kvE vst doc.id).getD [])) := by
  refine ⟨?_, ?_, ?_⟩
  · unfold semanticSearchE semanticBody
    rw [if_neg (by omega), if_pos h1]
    exact ⟨_, rfl⟩
  · intro doc sim hmem hstored hfail
    rw [semanticScoreGo_spec] at hmem
    rcases List.mem_map.mp hmem with ⟨d0, hd0, hd0eq⟩
    rw [Prod.mk.injEq] at hd0eq
    rcases hd0eq with ⟨hde, hse⟩
    subst hde
    rw [← hse]
    simp only [specCandidateScore, hstored, Bool.false_eq_true, if_false]
    unfold generateEmbedding
    rw [hfail]
  · intro doc sim hmem hstored
    rw [semanticScoreGo_spec] at hmem
    rcases List.mem_map.mp hmem with ⟨d0, hd0, hd0eq⟩
    rw [Prod.mk.injEq] at hd0eq
    rcases hd0eq with ⟨hde, hse⟩
    subst hde
    rw [← hse]
    simp only [specCandidateScore, hstored, if_true]

/-- Witness for C6 (amended): the one-candidate scenario with an
all-failing oracle completes without abort. -/
theorem semantic_embed_failure_behaviour_witness :
    (0 < (prefilterCandidates
        [KDoc.mk "C" "vvv yyy" "t" "thesis" none none none none] "vvv").length
      ∧ (prefilterCandidates
        [KDoc.mk "C" "vvv yyy" "t" "thesis" none none none none] "vvv").length ≤ 10)
    ∧ ∃ l, (semanticSearchE ratSqrt (fun _ => .error ()) (fun _ => 1) true
        (VecState.mk [] [])
        [KDoc.mk "C" "vvv yyy" "t" "thesis" none none none none] "vvv").1 = .ok l :=
  ⟨⟨by decide, by decide⟩,
   (semantic_embed_failure_behaviour ratSqrt (fun _ => .error ()) (fun _ => 1) true
      (VecState.mk [] [])
      [KDoc.mk "C" "vvv yyy" "t" "thesis" none none none none] "vvv"
      (by decide) (by decide)).1⟩

end LabDash
